import Mathlib

/-!
Verification development for the Enhanced-Importer proxy/relay service.

The JavaScript source (proxy-server/spells.js, the items module, the TTL
cache module, and the relay server) is shallowly embedded below.  Loosely
structured platform records are modelled by the JSON-like type `Val`;
JavaScript objects are association lists of string keys, JavaScript `||`
is `jsOr` over truthiness, and the stateful pieces (the TTL cache, the
relay endpoints) are explicit state-passing functions.  Network calls are
modelled by passing each upstream response (or its failure) as a value of
`UpstreamResp`.

Modelling notes, applying throughout:
* JavaScript `Map` and `Set` keys are compared with SameValueZero; for the
  primitive keys that actually occur (strings, numbers) this coincides
  with the structural equality of `Val` used here.
* JavaScript string ordering (used by `Array.prototype.sort()` with no
  comparator) compares UTF-16 code units; for the ASCII class names the
  code sorts this coincides with the `String` linear order used here.
* `console.log`/`console.warn` calls have no semantic effect and are
  dropped.
-/

namespace EnhancedImporter

/-- JSON-ish JavaScript values. `undef` stands for `undefined` (in
particular the result of reading a missing property). Numbers are modelled
as integers: every numeric field the embedded code manipulates (ids,
levels, timestamps) is integral. -/
inductive Val where
  | undef : Val
  | vnull : Val
  | vbool (b : Bool) : Val
  | vnum (n : Int) : Val
  | vstr (s : String) : Val
  | varr (elems : List Val) : Val
  | vobj (fields : List (String × Val)) : Val

mutual

/-- Structural decidable equality for `Val` (hand-written because `deriving`
does not handle this nested inductive). -/
def Val.decEq : (a b : Val) → Decidable (a = b)
  | .undef, .undef => isTrue rfl
  | .vnull, .vnull => isTrue rfl
  | .vbool x, .vbool y =>
    match inferInstanceAs (Decidable (x = y)) with
    | isTrue h => isTrue (h ▸ rfl)
    | isFalse h => isFalse (fun hh => h (Val.vbool.inj hh))
  | .vnum x, .vnum y =>
    match inferInstanceAs (Decidable (x = y)) with
    | isTrue h => isTrue (h ▸ rfl)
    | isFalse h => isFalse (fun hh => h (Val.vnum.inj hh))
  | .vstr x, .vstr y =>
    match inferInstanceAs (Decidable (x = y)) with
    | isTrue h => isTrue (h ▸ rfl)
    | isFalse h => isFalse (fun hh => h (Val.vstr.inj hh))
  | .varr x, .varr y =>
    match Val.decEqList x y with
    | isTrue h => isTrue (h ▸ rfl)
    | isFalse h => isFalse (fun hh => h (Val.varr.inj hh))
  | .vobj x, .vobj y =>
    match Val.decEqFields x y with
    | isTrue h => isTrue (h ▸ rfl)
    | isFalse h => isFalse (fun hh => h (Val.vobj.inj hh))
  | .undef, .vnull | .undef, .vbool _ | .undef, .vnum _ | .undef, .vstr _
  | .undef, .varr _ | .undef, .vobj _ => isFalse (by intro h; cases h)
  | .vnull, .undef | .vnull, .vbool _ | .vnull, .vnum _ | .vnull, .vstr _
  | .vnull, .varr _ | .vnull, .vobj _ => isFalse (by intro h; cases h)
  | .vbool _, .undef | .vbool _, .vnull | .vbool _, .vnum _ | .vbool _, .vstr _
  | .vbool _, .varr _ | .vbool _, .vobj _ => isFalse (by intro h; cases h)
  | .vnum _, .undef | .vnum _, .vnull | .vnum _, .vbool _ | .vnum _, .vstr _
  | .vnum _, .varr _ | .vnum _, .vobj _ => isFalse (by intro h; cases h)
  | .vstr _, .undef | .vstr _, .vnull | .vstr _, .vbool _ | .vstr _, .vnum _
  | .vstr _, .varr _ | .vstr _, .vobj _ => isFalse (by intro h; cases h)
  | .varr _, .undef | .varr _, .vnull | .varr _, .vbool _ | .varr _, .vnum _
  | .varr _, .vstr _ | .varr _, .vobj _ => isFalse (by intro h; cases h)
  | .vobj _, .undef | .vobj _, .vnull | .vobj _, .vbool _ | .vobj _, .vnum _
  | .vobj _, .vstr _ | .vobj _, .varr _ => isFalse (by intro h; cases h)

/-- Decidable equality for lists of `Val`. -/
def Val.decEqList : (a b : List Val) → Decidable (a = b)
  | [], [] => isTrue rfl
  | [], _ :: _ => isFalse (by intro h; cases h)
  | _ :: _, [] => isFalse (by intro h; cases h)
  | x :: xs, y :: ys =>
    match Val.decEq x y, Val.decEqList xs ys with
    | isTrue h1, isTrue h2 => isTrue (by rw [h1, h2])
    | isFalse h1, _ => isFalse (fun hh => h1 (List.cons.inj hh).1)
    | _, isFalse h2 => isFalse (fun hh => h2 (List.cons.inj hh).2)

/-- Decidable equality for object field lists. -/
def Val.decEqFields : (a b : List (String × Val)) → Decidable (a = b)
  | [], [] => isTrue rfl
  | [], _ :: _ => isFalse (by intro h; cases h)
  | _ :: _, [] => isFalse (by intro h; cases h)
  | (k1, v1) :: xs, (k2, v2) :: ys =>
    match inferInstanceAs (Decidable (k1 = k2)), Val.decEq v1 v2,
        Val.decEqFields xs ys with
    | isTrue h1, isTrue h2, isTrue h3 => isTrue (by rw [h1, h2, h3])
    | isFalse h1, _, _ =>
      isFalse (fun hh => h1 (congrArg (fun l => (l.headD ("", Val.undef)).1) hh))
    | _, isFalse h2, _ =>
      isFalse (fun hh => h2 (congrArg (fun l => (l.headD ("", Val.undef)).2) hh))
    | _, _, isFalse h3 => isFalse (fun hh => h3 (List.cons.inj hh).2)

end

instance : DecidableEq Val := Val.decEq

/-- JavaScript truthiness of a value (`undefined`, `null`, `false`, `0`
and the empty string are falsy; every array and object is truthy). -/
def Val.truthy : Val → Bool
  | .undef => false
  | .vnull => false
  | .vbool b => b
  | .vnum n => n != 0
  | .vstr s => s ≠ ""
  | .varr _ => true
  | .vobj _ => true

/-- JavaScript `a || b`: the left operand when truthy, otherwise the right. -/
def jsOr (a b : Val) : Val := if a.truthy then a else b

/-- Property read `v.k` / `v?.k`: the first binding of key `k` on an
object, `undefined` otherwise.  (On `undefined`/`null` receivers plain `.`
access throws in JavaScript; the embedded code only dereferences known
objects or uses `?.`, both of which this models.) -/
def Val.getField : Val → String → Val
  | .vobj fields, k =>
    match fields.find? (fun p => p.1 = k) with
    | some p => p.2
    | none => .undef
  | _, _ => Val.undef

/-- Field list of a value: the bindings of an object, `[]` otherwise
(object spread `{...v}` of a non-object spreads nothing). -/
def Val.fieldsOf : Val → List (String × Val)
  | .vobj fields => fields
  | _ => []

/-- Element list of a value: the elements of an array, `[]` otherwise.
The embedded code only iterates values it has checked (or may assume) to
be arrays. -/
def Val.asList : Val → List Val
  | .varr elems => elems
  | _ => []

/-- Whether the value is a string (JavaScript `typeof v === "string"`). -/
def Val.isStr : Val → Bool
  | .vstr _ => true
  | _ => false

/-- Whether the value is an array (JavaScript `Array.isArray`). -/
def Val.isArr : Val → Bool
  | .varr _ => true
  | _ => false

/-- Whether the value is an object literal. -/
def Val.isObj : Val → Bool
  | .vobj _ => true
  | _ => false

/-- Object spread with overrides, `{...orig, k1: v1, ..., kn: vn}`:
keys already on `orig` keep their position but take the overriding value,
fresh keys are appended in override order. -/
def objAssign (orig : Val) (upd : List (String × Val)) : Val :=
  .vobj ((orig.fieldsOf.map fun p =>
      match upd.find? (fun q => q.1 = p.1) with
      | some q => (p.1, q.2)
      | none => p) ++
    upd.filter (fun q => ¬ orig.fieldsOf.any (fun p => p.1 = q.1)))

/-- Property assignment `v.k = x` on an object: replaces every binding of
`k` (objects built here bind each key once), appends the binding when `k`
is fresh.  Non-objects are returned unchanged (JavaScript would throw on
`null`/`undefined`; the embedded code only assigns to known objects). -/
def Val.setKey : Val → String → Val → Val
  | .vobj fields, k, x =>
    if fields.any (fun p => p.1 = k) then
      .vobj (fields.map fun p => if p.1 = k then (k, x) else p)
    else .vobj (fields ++ [(k, x)])
  | v, _, _ => v

/-- Rest destructuring `const { k, ...rest } = v`: the object without key
`k`. -/
def Val.removeKey : Val → String → Val
  | .vobj fields, k => .vobj (fields.filter (fun p => ¬ p.1 = k))
  | v, _ => v

/-- Whether key `k` is bound on the value. -/
def Val.hasKey (v : Val) (k : String) : Bool :=
  v.fieldsOf.any (fun p => p.1 = k)

/-- JavaScript string coercion `String(v)` for the values that occur here
(objects stringify to "[object Object]", arrays join their elements with
commas as JavaScript does). -/
def jsToString : Val → String
  | .undef => "undefined"
  | .vnull => "null"
  | .vbool b => if b then "true" else "false"
  | .vnum n => toString n
  | .vstr s => s
  | .varr elems => String.intercalate "," (elems.map fun e =>
      match e with
      | .undef => ""
      | .vnull => ""
      | .vbool b => if b then "true" else "false"
      | .vnum n => toString n
      | .vstr s => s
      | _ => "")
  | .vobj _ => "[object Object]"

/-- Insertion-order deduplication, as performed by `new Set([...])`
followed by spreading: the first occurrence of each element is kept. -/
def dedupFirst {α : Type} [DecidableEq α] : List α → List α
  | [] => []
  | x :: xs => x :: dedupFirst (xs.filter (fun y => ¬ y = x))
termination_by l => l.length
decreasing_by
  simp only [List.length_cons]
  exact Nat.lt_succ_of_le (List.length_filter_le _ _)

/-- Comparison performed by the default `Array.prototype.sort()`:
elements compare as strings (by UTF-16 code units, which agrees with the
`String` order here on the ASCII data being sorted). -/
def jsLe (a b : Val) : Prop := jsToString a ≤ jsToString b

instance : DecidableRel jsLe :=
  fun a b => inferInstanceAs (Decidable (jsToString a ≤ jsToString b))

/-- Default `Array.prototype.sort()`.  ES2019 sort is stable, as is
insertion sort; and for a total order any two sorted permutations of a
list coincide, so the choice of algorithm is immaterial. -/
def jsSortVals (l : List Val) : List Val :=
  l.insertionSort jsLe

-- ===========================================================================
-- TTL cache (cache.js: class Cache)
-- ===========================================================================

/-- Cache entry: `{ data, timestamp }` as stored by `Cache.add`. -/
structure CacheEntry where
  data : Val
  timestamp : Int
  deriving DecidableEq

/-- State of one `Cache` instance: its TTL in milliseconds and the
underlying `Map` of entries, modelled as an insertion-ordered association
list with unique string keys. -/
structure CacheState where
  ttlMs : Int
  items : List (String × CacheEntry)
  deriving DecidableEq

/-- Fresh cache instance (`new Cache(name, ttlMs)`;
the `name` field only feeds log lines and is dropped). -/
def CacheState.mk0 (ttlMs : Int) : CacheState := ⟨ttlMs, []⟩

/-- Method `isExpired(timestamp)`: `(Date.now() - timestamp) > this.ttlMs`. -/
def CacheState.isExpired (c : CacheState) (now timestamp : Int) : Bool :=
  now - timestamp > c.ttlMs

/-- Method `exists(id)` at time `now`: returns `{exists, data}` and the
(possibly mutated) cache, since an expired entry is deleted by the read
that observes it. -/
def CacheState.existsAt (c : CacheState) (id : String) (now : Int) :
    (Bool × Val) × CacheState :=
  match c.items.find? (fun p => p.1 = id) with
  | none => ((false, .vnull), c)
  | some p =>
    if c.isExpired now p.2.timestamp then
      ((false, .vnull), ⟨c.ttlMs, c.items.filter (fun q => ¬ q.1 = id)⟩)
    else
      ((true, p.2.data), c)

/-- Method `add(id, data)` at time `now`: empty data (falsy, or an empty
array) is not cached; otherwise any old entry is deleted and the new entry
is appended with the current timestamp. -/
def CacheState.add (c : CacheState) (id : String) (data : Val) (now : Int) :
    CacheState :=
  if ¬ data.truthy ∨ (data.isArr ∧ data.asList.length = 0) then c
  else ⟨c.ttlMs, c.items.filter (fun q => ¬ q.1 = id) ++ [(id, ⟨data, now⟩)]⟩

/-- Method `remove(id)`. -/
def CacheState.removeId (c : CacheState) (id : String) : CacheState :=
  ⟨c.ttlMs, c.items.filter (fun q => ¬ q.1 = id)⟩

/-- Whether the cache holds an entry for `id` that is unexpired at time
`now` (the pure question `exists` answers, without its eviction side
effect). -/
def CacheState.hasValid (c : CacheState) (id : String) (now : Int) : Bool :=
  match c.items.find? (fun p => p.1 = id) with
  | none => false
  | some p => ¬ c.isExpired now p.2.timestamp

-- ===========================================================================
-- Configuration constants (config.js) and source registry (sources.js)
-- ===========================================================================

/-- Constant `CONSTANTS.EXCLUDED_SOURCE_ID`: the Unearthed Arcana
(playtest) source id. -/
def EXCLUDED_SOURCE_ID : Int := 39

/-- Constant `CONSTANTS.SPELLCASTING_CLASSES`: the fixed fan-out list of
(classId, className) pairs, in source order. -/
def SPELLCASTING_CLASSES : List (Int × String) :=
  [(1, "Bard"), (2, "Cleric"), (3, "Druid"), (4, "Paladin"), (5, "Ranger"),
   (6, "Sorcerer"), (7, "Warlock"), (8, "Wizard"), (9, "Barbarian"),
   (10, "Fighter"), (11, "Monk"), (12, "Rogue"), (252717, "Artificer"),
   (357975, "Blood Hunter")]

/-- Constant `SPELL_SCHOOL_MAP`: spell school ids to names. -/
def SPELL_SCHOOL_MAP : Int → Option String
  | 1 => some "Abjuration"
  | 2 => some "Conjuration"
  | 3 => some "Divination"
  | 4 => some "Enchantment"
  | 5 => some "Evocation"
  | 6 => some "Illusion"
  | 7 => some "Necromancy"
  | 8 => some "Transmutation"
  | _ => none

/-- Indexing `SPELL_SCHOOL_MAP[definition.schoolId]`: known numeric ids
resolve to the school name, anything else to `undefined`. -/
def schoolLookup : Val → Val
  | .vnum n =>
    match SPELL_SCHOOL_MAP n with
    | some s => .vstr s
    | none => .undef
  | _ => Val.undef

/-- The `Map<id, name>` built by `buildSourceMap`, as an association list
with JavaScript `Map.set` semantics. -/
def SourceMap := List (Val × Val)

/-- `Map.get` on a source map. -/
def smGet (sm : SourceMap) (k : Val) : Option Val :=
  (List.find? (fun p => p.1 = k) sm).map (fun p => p.2)

/-- `Map.set` semantics: an existing key keeps its position and takes the
new value, a fresh key is appended. -/
def msetV (m : List (Val × Val)) (k v : Val) : List (Val × Val) :=
  if m.any (fun p => p.1 = k) then
    m.map (fun p => if p.1 = k then (k, v) else p)
  else m ++ [(k, v)]

/-- Function `buildSourceMap()` applied to the (cached) config response
body: every source with truthy `id` and `name` contributes a map entry. -/
def buildSourceMapPure (config : Val) : SourceMap :=
  if (config.getField "sources").truthy ∧ (config.getField "sources").isArr then
    (config.getField "sources").asList.foldl
      (fun m s =>
        if (s.getField "id").truthy ∧ (s.getField "name").truthy then
          msetV m (s.getField "id") (s.getField "name")
        else m) []
  else []

/-- Function `getAllSources()` applied to the config response body:
simplified `{id, name, description, sourceCategory}` objects. -/
def getAllSourcesPure (config : Val) : List Val :=
  if ¬ (config.getField "sources").truthy ∨ ¬ (config.getField "sources").isArr
  then []
  else (config.getField "sources").asList.map fun s =>
    .vobj [("id", s.getField "id"), ("name", s.getField "name"),
      ("description", jsOr (s.getField "description") .vnull),
      ("sourceCategory", jsOr (s.getField "sourceCategory") .vnull)]

/-- Function `extractSourceName(source, sourceMap)`: an inline string
`sourceBook` wins; else a truthy map entry for a truthy `sourceId`; else
the synthetic `"Source {id}"` fallback for a truthy `sourceId`; else
`"Unknown Source"`. -/
def extractSourceName (source : Val) (sm : SourceMap) : Val :=
  if (source.getField "sourceBook").truthy ∧ (source.getField "sourceBook").isStr
  then source.getField "sourceBook"
  else if (source.getField "sourceId").truthy then
    match smGet sm (source.getField "sourceId") with
    | some n =>
      if n.truthy then n
      else .vstr ("Source " ++ jsToString (source.getField "sourceId"))
    | none => .vstr ("Source " ++ jsToString (source.getField "sourceId"))
  else .vstr "Unknown Source"

-- ===========================================================================
-- Spells module (proxy-server/spells.js, current variant)
-- ===========================================================================

/-- Effective source list of a spell record:
`spell.definition?.sources || spell.sources || []`. -/
def spellSourcesVal (spell : Val) : Val :=
  jsOr ((spell.getField "definition").getField "sources")
    (jsOr (spell.getField "sources") (.varr []))

/-- Function `filterUnearthedArcana` (spells): keep records with no source
info; otherwise drop a record when any effective source has
`sourceId === 39`. -/
def filterUnearthedArcanaSpells (spells : List Val) : List Val :=
  spells.filter fun spell =>
    if ¬ ((spell.getField "definition").getField "sources").truthy ∧
        ¬ (spell.getField "sources").truthy then true
    else ¬ (spellSourcesVal spell).asList.any
        (fun s => s.getField "sourceId" = .vnum EXCLUDED_SOURCE_ID)

/-- Function `extractComponents(spell)`. -/
def extractComponents (spell : Val) : Val :=
  let d := jsOr (spell.getField "definition") spell
  .vobj [
    ("verbal", .vbool ((d.getField "componentsArray").asList.contains (.vnum 1))),
    ("somatic", .vbool ((d.getField "componentsArray").asList.contains (.vnum 2))),
    ("material", .vbool ((d.getField "componentsArray").asList.contains (.vnum 3))),
    ("materialDescription", jsOr (d.getField "componentsDescription") .vnull)]

/-- Function `extractSourceBook(spell, sourceMap)` (spells module): the
comma-joined list of distinct truthy source names. -/
def extractSourceBookSpell (spell : Val) (sm : SourceMap) : String :=
  let sources := (spellSourcesVal spell).asList
  if sources.length = 0 then "Unknown Source"
  else
    let names := sources.foldl
      (fun acc s =>
        let n := extractSourceName s sm
        if n.truthy ∧ ¬ acc.contains n then acc ++ [n] else acc) []
    if names.length > 0 then String.intercalate ", " (names.map jsToString)
    else "Unknown Source"

/-- Function `enhanceSpellData(spell, className, sourceMap)`: spread of the
original record with the computed fields, in source literal order. -/
def enhanceSpellData (spell : Val) (className : String) (sm : SourceMap) : Val :=
  let d := jsOr (spell.getField "definition") spell
  objAssign spell [
    ("id", jsOr (spell.getField "id") (d.getField "id")),
    ("name", jsOr (d.getField "name")
      (jsOr (spell.getField "name") (.vstr "Unknown Spell"))),
    ("_classes", .varr [.vstr className]),
    ("isRitual", .vbool (d.getField "ritual" = .vbool true ∨
      d.getField "isRitual" = .vbool true)),
    ("requiresConcentration", .vbool (d.getField "concentration" = .vbool true ∨
      d.getField "requiresConcentration" = .vbool true)),
    ("components", extractComponents spell),
    ("school", jsOr ((d.getField "school").getField "name")
      (jsOr (schoolLookup (d.getField "schoolId"))
        (jsOr (d.getField "school") (.vstr "Unknown")))),
    ("level", if d.getField "level" = .undef then spell.getField "level"
      else d.getField "level"),
    ("description", jsOr (d.getField "description") (spell.getField "description")),
    ("castingTime", jsOr (d.getField "castingTime") (spell.getField "castingTime")),
    ("range", jsOr (d.getField "range") (spell.getField "range")),
    ("duration", jsOr (d.getField "duration") (spell.getField "duration")),
    ("sourceBook", .vstr (extractSourceBookSpell spell sm))]

/-- Outcome of one outbound HTTP request: `err` covers a thrown network
error and a non-2xx status (both of which the per-class fetch turns into
an empty contribution), `ok` carries the parsed JSON body. -/
inductive UpstreamResp where
  | err : UpstreamResp
  | ok (json : Val) : UpstreamResp
  deriving DecidableEq

/-- Function `fetchSpellsByClass` with its upstream response made
explicit: every failure path (network error, non-2xx, `!success`,
missing or non-array `data`) yields `[]`; a good response yields the
enhanced records. -/
def fetchSpellsByClassPure (r : UpstreamResp) (className : String)
    (sm : SourceMap) : List Val :=
  match r with
  | .err => []
  | .ok json =>
    if ¬ (json.getField "success").truthy ∨ ¬ (json.getField "data").truthy
    then []
    else match json.getField "data" with
      | .varr l => l.map (fun s => enhanceSpellData s className sm)
      | _ => []

/-- Function `filterBySourceBooks` (spells): with a nonempty filter, keep
a spell when any effective source id is among the requested ids. -/
def filterBySourceBooksSpells (spells : List Val) (ids : List Val) : List Val :=
  if ids.length = 0 then spells
  else spells.filter fun spell =>
    (spellSourcesVal spell).asList.any
      (fun s => ids.contains (s.getField "sourceId"))

/-- One step of the merge-by-name loop in `fetchAllSpells`: a record with
a falsy `name` is skipped; a record whose name is already a key unions its
`_classes` tag into the existing entry (insertion-ordered, deduplicated);
otherwise the record seeds a new entry keyed by its name.  The
`spellsMap` is a JavaScript `Map` from name values to spell records,
modelled as an insertion-ordered association list (primitive keys compare
by value, matching SameValueZero; in every real run the keys are the
extracted name strings). -/
def mergeStep (m : List (Val × Val)) (spell : Val) : List (Val × Val) :=
  let name := spell.getField "name"
  if ¬ name.truthy then m
  else if m.any (fun p => p.1 = name) then
    m.map fun q =>
      if q.1 = name then
        (name, q.2.setKey "_classes" (.varr (dedupFirst
          ((q.2.getField "_classes").asList ++ (spell.getField "_classes").asList))))
      else q
  else m ++ [(name, spell)]

/-- The whole merge loop (`for (const spells of classResults) for (const
spell of spells) ...`), as a fold over the concatenated per-class
results. -/
def mergeFold (spells : List Val) (m : List (Val × Val)) : List (Val × Val) :=
  spells.foldl mergeStep m

/-- Finalisation of one merged entry: `const { _classes, ...rest } =
spell; return {...rest, availableToClasses: _classes.sort(),
availableToSubclasses: []}`. -/
def finalizeSpell (spell : Val) : Val :=
  objAssign (spell.removeKey "_classes")
    [("availableToClasses", .varr (jsSortVals ((spell.getField "_classes").asList))),
     ("availableToSubclasses", .varr [])]

/-- The per-class enhanced result lists of `fetchAllSpells`, in the fixed
class-array order, for a given assignment of upstream responses to class
ids. -/
def classResultsOf (resp : Int → UpstreamResp) (sm : SourceMap) : List (List Val) :=
  SPELLCASTING_CLASSES.map fun c => fetchSpellsByClassPure (resp c.1) c.2 sm

/-- The `allSpells` value inside `fetchAllSpells`: merged entries in
insertion order, finalised. -/
def mergedAllSpells (resp : Int → UpstreamResp) (sm : SourceMap) : List Val :=
  (mergeFold (classResultsOf resp sm).flatten []).map (fun p => finalizeSpell p.2)

/-- The cited-source-id set (`ownedSourceIds`) computed over a list of
records: every truthy `sourceId` of every effective source, as a list
queried by membership (`Set.has`). -/
def citedSourceIds (records : List Val) : List Val :=
  records.flatMap fun e =>
    (spellSourcesVal e).asList.filterMap fun s =>
      if (s.getField "sourceId").truthy then some (s.getField "sourceId") else none

/-- The `sourceStats` object: occurrence counts keyed by
`spell.sourceBook || 'Unknown'` (object keys are strings). -/
def sourceStatsOf (records : List Val) : List (String × Int) :=
  records.foldl
    (fun acc e =>
      let k := jsToString (jsOr (e.getField "sourceBook") (.vstr "Unknown"))
      if acc.any (fun p => p.1 = k) then
        acc.map (fun p => if p.1 = k then (k, p.2 + 1) else p)
      else acc ++ [(k, 1)]) []

/-- The `ownershipBySourceId` map: for each source of the platform config,
whether its id is among the cited ids. -/
def ownershipOf (allSources : List Val) (cited : List Val) : List (Val × Bool) :=
  allSources.foldl
    (fun m src =>
      if m.any (fun p => p.1 = src.getField "id") then
        m.map (fun p => if p.1 = src.getField "id" then
          (src.getField "id", cited.contains (src.getField "id")) else p)
      else m ++ [(src.getField "id", cited.contains (src.getField "id"))]) []

/-- `Map.get` on an ownership map. -/
def ownGet (m : List (Val × Bool)) (k : Val) : Option Bool :=
  (List.find? (fun p => p.1 = k) m).map (fun p => p.2)

/-- Result bundle of `fetchAllSpells`. -/
structure SpellsResult where
  spells : List Val
  sourceStats : List (String × Int)
  ownershipBySourceId : List (Val × Bool)
  allSources : List Val
  deriving DecidableEq

/-- Function `fetchAllSpells(cobaltCookie, sourceBookIds)` with its
network interactions made explicit: `resp` assigns each class id its
upstream response and `config` is the body the source registry resolved
(`{sources: []}` when the config fetch failed).  A `null` source-filter
argument behaves exactly like the empty list and is modelled by it. -/
def fetchAllSpellsPure (resp : Int → UpstreamResp) (config : Val)
    (sourceBookIds : List Val) : SpellsResult :=
  let sm := buildSourceMapPure config
  let allSpells := mergedAllSpells resp sm
  let ownedSourceIds := citedSourceIds allSpells
  let f1 := filterUnearthedArcanaSpells allSpells
  let filteredSpells :=
    if sourceBookIds.length > 0 then filterBySourceBooksSpells f1 sourceBookIds
    else f1
  let allSources := getAllSourcesPure config
  { spells := filteredSpells
    sourceStats := sourceStatsOf filteredSpells
    ownershipBySourceId := ownershipOf allSources ownedSourceIds
    allSources := allSources }

-- ===========================================================================
-- Items module (items.js)
-- ===========================================================================

/-- Modelled from the spec: the numeric rarity map `RARITY_MAP` is imported
from the items module's config but its definition is not among the
provided sources.  The spec fixes id `0` to `"Mundane"` and id `1` to
`"Common"` and says nothing about further entries, so the item-enhancement
functions below take the map as a parameter and `RARITY_MAP` holds exactly
the two entries the spec names. -/
def RARITY_MAP : Int → Option String := fun n =>
  if n = 0 then some "Mundane" else if n = 1 then some "Common" else none

/-- Indexing `RARITY_MAP[x]`: known numeric ids resolve to the mapped
name, anything else (including a missing id) to `undefined`. -/
def rarityIndex (m : Int → Option String) : Val → Val
  | .vnum n =>
    match m n with
    | some s => .vstr s
    | none => .undef
  | _ => Val.undef

/-- Effective source list of an item record: `item.sources || []`. -/
def itemSourcesVal (item : Val) : Val :=
  jsOr (item.getField "sources") (.varr [])

/-- Function `extractSourceBook(item, sourceMap)` (items module): like the
spells variant but reading `item.sources` only. -/
def extractSourceBookItem (item : Val) (sm : SourceMap) : String :=
  let sources := (itemSourcesVal item).asList
  if sources.length = 0 then "Unknown Source"
  else
    let names := sources.foldl
      (fun acc s =>
        let n := extractSourceName s sm
        if n.truthy ∧ ¬ acc.contains n then acc ++ [n] else acc) []
    if names.length > 0 then String.intercalate ", " (names.map jsToString)
    else "Unknown Source"

/-- Function `filterUnearthedArcana` (items): keep records without a
truthy `sources`; otherwise drop a record when any source has
`sourceId === 39`. -/
def filterUnearthedArcanaItems (items : List Val) : List Val :=
  items.filter fun item =>
    if ¬ (item.getField "sources").truthy then true
    else ¬ (itemSourcesVal item).asList.any
      (fun s => s.getField "sourceId" = .vnum EXCLUDED_SOURCE_ID)

/-- The rarity id read by `enhanceItemData`:
`item.rarity !== undefined ? item.rarity : item.definition?.rarity`. -/
def rarityIdOf (item : Val) : Val :=
  if item.getField "rarity" = .undef then (item.getField "definition").getField "rarity"
  else item.getField "rarity"

/-- The rarity name computed by `enhanceItemData`:
`RARITY_MAP[rarityId !== null && rarityId !== undefined ? rarityId : 0]
|| 'Mundane'`. -/
def rarityNameOf (m : Int → Option String) (item : Val) : Val :=
  let rid := rarityIdOf item
  jsOr (rarityIndex m (if ¬ rid = .vnull ∧ ¬ rid = .undef then rid else .vnum 0))
    (.vstr "Mundane")

/-- Function `enhanceItemData(item, sourceMap)` (with the rarity map made
explicit, see `RARITY_MAP`): spread of the original record with the
computed fields, in source literal order.  The debug-logging block has no
semantic effect and is dropped. -/
def enhanceItemData (item : Val) (sm : SourceMap) (m : Int → Option String) : Val :=
  objAssign item [
    ("sourceBook", .vstr (extractSourceBookItem item sm)),
    ("rarityName", rarityNameOf m item),
    ("id", item.getField "id"),
    ("name", jsOr (item.getField "name") (.vstr "Unknown Item")),
    ("description", jsOr (item.getField "description")
      (jsOr (item.getField "snippet") (.vstr "")))]

/-- Function `filterBySourceBooks` (items). -/
def filterBySourceBooksItems (items : List Val) (ids : List Val) : List Val :=
  if ids.length = 0 then items
  else items.filter fun item =>
    (itemSourcesVal item).asList.any
      (fun s => ids.contains (s.getField "sourceId"))

/-- The raw item list extracted from the response body: `json.data` when
that is an array, the body itself when it is an array, otherwise a thrown
"Unexpected response format" error. -/
def itemsFromJson (json : Val) : Option (List Val) :=
  if (json.getField "data").truthy ∧ (json.getField "data").isArr then
    some (json.getField "data").asList
  else if json.isArr then some json.asList
  else none

/-- The cited-source-id set of `fetchAllItems`, computed over the raw
(unfiltered) records via `item.sources || []`. -/
def citedSourceIdsItems (records : List Val) : List Val :=
  records.flatMap fun e =>
    (itemSourcesVal e).asList.filterMap fun s =>
      if (s.getField "sourceId").truthy then some (s.getField "sourceId") else none

/-- The `sourceStats` object of `fetchAllItems` (same shape as for
spells, keyed by `item.sourceBook || 'Unknown'`). -/
def sourceStatsOfItems (records : List Val) : List (String × Int) :=
  sourceStatsOf records

/-- Result bundle of `fetchAllItems`. -/
structure ItemsResult where
  items : List Val
  sourceStats : List (String × Int)
  ownershipBySourceId : List (Val × Bool)
  allSources : List Val
  deriving DecidableEq

/-- Function `fetchAllItems(cobaltCookie, sourceBookIds)` with its network
interactions made explicit: `resp` is the item-catalog response and
`config` the source-registry body.  `none` models the error paths the
function rethrows to its caller (network/auth failure, non-2xx status,
unexpected body shape); the source filter runs before enhancement, the
unconditional excluded-content filter after it, and ownership is computed
from the raw unfiltered records. -/
def fetchAllItemsPure (resp : UpstreamResp) (config : Val)
    (sourceBookIds : List Val) (m : Int → Option String) : Option ItemsResult :=
  let sm := buildSourceMapPure config
  match resp with
  | .err => none
  | .ok json =>
    match itemsFromJson json with
    | none => none
    | some rawItems =>
      let ownedSourceIds := citedSourceIdsItems rawItems
      let items :=
        if sourceBookIds.length > 0 then filterBySourceBooksItems rawItems sourceBookIds
        else rawItems
      let enhancedItems := items.map fun i => enhanceItemData i sm m
      let filteredItems := filterUnearthedArcanaItems enhancedItems
      let allSources := getAllSourcesPure config
      some { items := filteredItems
             sourceStats := sourceStatsOfItems filteredItems
             ownershipBySourceId := ownershipOf allSources ownedSourceIds
             allSources := allSources }

-- ===========================================================================
-- Relay API surface (server, part of the proxy)
-- ===========================================================================

/-- Middleware `validateCobaltCookie(req, res, next)`: `some (status,
error, message)` is the short-circuiting 400 response, `none` passes to
the handler.  String length counts UTF-16 code units in JavaScript, which
agrees with `String.length` on the ASCII credentials involved. -/
def validateCobaltCookieMw (body : Val) : Option (Nat × String × String) :=
  match body.getField "cobaltCookie" with
  | .vstr s =>
    if s = "" then some (400, "Invalid request", "Cobalt cookie is required")
    else if s.length < 20 ∨ s.length > 2000 then
      some (400, "Invalid cookie", "Cobalt cookie format is invalid")
    else none
  | _ => some (400, "Invalid request", "Cobalt cookie is required")

/-- Outcome of one relay request: HTTP status, response body, whether the
cache-hit shortcut answered it, and whether the handler performed any
outbound network work. -/
structure RouteResp where
  status : Nat
  body : Val
  fromCache : Bool
  usedFetch : Bool
  deriving DecidableEq

/-- Uniform error body `{error, message}`. -/
def errBody (e msg : String) : Val :=
  .vobj [("error", .vstr e), ("message", .vstr msg)]

/-- Route `POST /api/character/*`: the validation middleware runs first
and short-circuits with its 400; only then is the authenticated upstream
GET performed (a failure is surfaced as 500, or 504 on timeout — the
distinction is immaterial here and both are modelled by 500). -/
def characterRoute (body : Val) (upstream : UpstreamResp) : RouteResp :=
  match validateCobaltCookieMw body with
  | some (st, e, msg) => ⟨st, errBody e msg, false, false⟩
  | none =>
    match upstream with
    | .ok data => ⟨200, data, false, true⟩
    | .err => ⟨500, errBody "API request failed" "", false, true⟩

/-- Stand-in for `getCacheId`, the SHA-256 hex digest of the credential.
The relay logic relies only on the digest being a deterministic function
of the credential string, so the digest computation itself is left
uninterpreted (the identity embedding is deterministic and injective, as a
cryptographic hash is collision-free in practice). -/
def getCacheId (cobaltCookie : String) : String := cobaltCookie

/-- The computed content-cache key: the credential digest, suffixed with
`_sources_` and the `sort().join('_')` of the requested source ids when
a nonempty filter accompanies the request. -/
def contentCacheKey (cookie : String) (idsVal : Val) : String :=
  if idsVal.truthy ∧ idsVal.asList.length > 0 then
    getCacheId cookie ++ "_sources_" ++
      String.intercalate "_" ((jsSortVals idsVal.asList).map jsToString)
  else getCacheId cookie

/-- Items branch of `POST /api/content/*` (endpoint `/items`): no
credential validation runs on this route; `getCacheId` on a missing or
non-string credential throws and the catch block answers 500.  Otherwise:
cache-hit shortcut unless `bustCache` is truthy, then the fetch (whose
outcome is the explicit `fetchOutcome`, `none` being a thrown error), then
the write-back of the fresh items array under the same key.  The
combined-report bookkeeping only logs and is dropped. -/
def contentItemsRoute (body : Val) (cache : CacheState) (now : Int)
    (fetchOutcome : Option ItemsResult) : RouteResp × CacheState :=
  match body.getField "cobaltCookie" with
  | .vstr cookie =>
    let cacheId := contentCacheKey cookie (body.getField "sourceBookIds")
    let afterHit : CacheState × Option Val :=
      if ¬ (body.getField "bustCache").truthy then
        match cache.existsAt cacheId now with
        | ((true, data), c1) => (c1, some data)
        | ((false, _), c1) => (c1, none)
      else (cache, none)
    match afterHit with
    | (c1, some data) => (⟨200, data, true, false⟩, c1)
    | (c1, none) =>
      match fetchOutcome with
      | none => (⟨500, errBody "API request failed" "", false, true⟩, c1)
      | some r =>
        (⟨200, .varr r.items, false, true⟩, c1.add cacheId (.varr r.items) now)
  | _ => (⟨500, errBody "API request failed" "", false, false⟩, cache)

/-- Spells branch of `POST /api/content/*` (endpoint `/spells`): same
shape as the items branch; `fetchAllSpells` swallows per-class failures
and so always yields a result bundle. -/
def contentSpellsRoute (body : Val) (cache : CacheState) (now : Int)
    (fetchOutcome : SpellsResult) : RouteResp × CacheState :=
  match body.getField "cobaltCookie" with
  | .vstr cookie =>
    let cacheId := contentCacheKey cookie (body.getField "sourceBookIds")
    let afterHit : CacheState × Option Val :=
      if ¬ (body.getField "bustCache").truthy then
        match cache.existsAt cacheId now with
        | ((true, data), c1) => (c1, some data)
        | ((false, _), c1) => (c1, none)
      else (cache, none)
    match afterHit with
    | (c1, some data) => (⟨200, data, true, false⟩, c1)
    | (c1, none) =>
      (⟨200, .varr fetchOutcome.spells, false, true⟩,
        c1.add cacheId (.varr fetchOutcome.spells) now)
  | _ => (⟨500, errBody "API request failed" "", false, false⟩, cache)

/-- Generic branch of `POST /api/content/*` (an endpoint that is none of
`/items`, `/spells`, `/sources`): the game-data URL is fetched with no
credential validation at all — authenticated when a truthy credential is
present, anonymously otherwise; either way the network call happens. -/
def contentGenericRoute (_body : Val) (upstream : UpstreamResp) : RouteResp :=
  match upstream with
  | .ok data => ⟨200, data, false, true⟩
  | .err => ⟨500, errBody "API request failed" "", false, true⟩

-- ===========================================================================
-- Statement-level definitions
-- ===========================================================================

/-- The class-tag list `spell._classes` of a record, as a list. -/
def classesOfVal (s : Val) : List Val := (s.getField "_classes").asList

/-- The class-list union the merge performs on an existing entry:
`existing._classes = [...new Set([...existing._classes, ...spell._classes])]`. -/
def unionInto (e : Val) (newClasses : List Val) : Val :=
  e.setKey "_classes" (.varr (dedupFirst (classesOfVal e ++ newClasses)))

/-- Records with a given `name` value, in order, within a record list. -/
def occsOf (v : Val) (l : List Val) : List Val :=
  l.filter (fun s => s.getField "name" = v)

/-- Names of the spellcasting classes (in the fixed class-array order)
whose per-class result contains a spell with the given name value. -/
def classesYielding (resp : Int → UpstreamResp) (sm : SourceMap) (v : Val) :
    List String :=
  (SPELLCASTING_CLASSES.filter fun c =>
    (fetchSpellsByClassPure (resp c.1) c.2 sm).any
      (fun s => s.getField "name" = v)).map Prod.snd

/-- Lexicographic string sort (what the default JavaScript sort performs
on the ASCII class names involved). -/
def sortStrings (l : List String) : List String :=
  l.insertionSort (fun a b => a ≤ b)

/-- Keys whose values `enhanceSpellData` recomputes (the keys of its
object-literal overrides). -/
def spellEnhKeys : List String :=
  ["id", "name", "_classes", "isRitual", "requiresConcentration", "components",
   "school", "level", "description", "castingTime", "range", "duration",
   "sourceBook"]

/-- Keys whose values `enhanceItemData` recomputes. -/
def itemEnhKeys : List String :=
  ["sourceBook", "rarityName", "id", "name", "description"]

/-- Invariant of the merge map: keys are distinct truthy name values, and
each stored record is an object carrying its key as its `name`. -/
def MapInv (m : List (Val × Val)) : Prop :=
  (m.map Prod.fst).Nodup ∧
  ∀ p ∈ m, p.1.truthy = true ∧ p.2.getField "name" = p.1 ∧ p.2.isObj = true

/-- String payload of a `vstr`, `none` otherwise. -/
def Val.asStr? : Val → Option String
  | .vstr s => some s
  | _ => none

/-- The class-name strings tagged on a record list (each enhanced record
carries exactly one, its fetch class). -/
def classTagsOf (l : List Val) : List String :=
  l.flatMap fun occ => (classesOfVal occ).filterMap Val.asStr?

-- ===========================================================================
-- Generic lemmas on the object model
-- ===========================================================================

theorem find?_congr_mem {α : Type} {l : List α} {p q : α → Bool}
    (h : ∀ x ∈ l, p x = q x) : l.find? p = l.find? q := by
  induction l with
  | nil => rfl
  | cons x xs ih =>
    have hx := h x (by simp)
    by_cases hq : q x = true
    · rw [List.find?_cons_of_pos _ (hx ▸ hq), List.find?_cons_of_pos _ hq]
    · rw [List.find?_cons_of_neg _ (by rw [hx]; exact hq),
        List.find?_cons_of_neg _ hq]
      exact ih (fun y hy => h y (by simp [hy]))

theorem getField_vobj (fields : List (String × Val)) (k : String) :
    (Val.vobj fields).getField k =
      match fields.find? (fun p => p.1 = k) with
      | some p => p.2
      | none => .undef := rfl

theorem getField_objAssign (o : Val) (upd : List (String × Val)) (k : String) :
    (objAssign o upd).getField k =
      match upd.find? (fun q => q.1 = k) with
      | some q => q.2
      | none => o.getField k := by
  have keyf : ∀ p : String × Val,
      ((match upd.find? (fun q => q.1 = p.1) with
        | some q => (p.1, q.2)
        | none => p) : String × Val).1 = p.1 := by
    intro p
    cases upd.find? (fun q => q.1 = p.1) <;> rfl
  rw [objAssign, getField_vobj, List.find?_append]
  have hmap : (o.fieldsOf.map fun p =>
        match upd.find? (fun q => q.1 = p.1) with
        | some q => (p.1, q.2)
        | none => p).find? (fun p => p.1 = k) =
      (o.fieldsOf.find? (fun p => p.1 = k)).map fun p =>
        match upd.find? (fun q => q.1 = p.1) with
        | some q => (p.1, q.2)
        | none => p := by
    rw [List.find?_map]
    exact congrArg _ (find?_congr_mem (fun p _ => by
      simp only [Function.comp_apply, keyf p]))
  rw [hmap]
  cases hfo : o.fieldsOf.find? (fun p => p.1 = k) with
  | some p0 =>
    have hp0 : p0.1 = k := by simpa using List.find?_some hfo
    have hval : o.getField k = p0.2 := by
      cases o with
      | vobj fields => rw [getField_vobj]; rw [Val.fieldsOf] at hfo; rw [hfo]
      | undef => simp [Val.fieldsOf] at hfo
      | vnull => simp [Val.fieldsOf] at hfo
      | vbool b => simp [Val.fieldsOf] at hfo
      | vnum n => simp [Val.fieldsOf] at hfo
      | vstr s => simp [Val.fieldsOf] at hfo
      | varr l => simp [Val.fieldsOf] at hfo
    rw [hval, Option.map_some']
    simp only [Option.or, hp0]
    cases upd.find? (fun q => q.1 = k) <;> rfl
  | none =>
    rw [Option.map_none', Option.none_or]
    have hnotin : (o.fieldsOf.any fun p => p.1 = k) = false := by
      apply List.any_eq_false.mpr
      intro p hp
      have h2 := List.find?_eq_none.mp hfo p hp
      simpa using h2
    have hfe : (upd.filter fun q =>
        ¬ o.fieldsOf.any (fun p => p.1 = q.1)).find? (fun q => q.1 = k) =
        upd.find? (fun q => q.1 = k) := by
      rw [List.find?_filter]
      refine find?_congr_mem (fun q _ => ?_)
      by_cases hqk : q.1 = k
      · simp [hqk, hnotin]
      · simp [hqk]
    rw [hfe]
    cases hu : upd.find? (fun q => q.1 = k) with
    | some q => rfl
    | none =>
      cases o with
      | vobj fields =>
        rw [Val.fieldsOf] at hfo
        rw [getField_vobj, hfo]
      | undef => rfl
      | vnull => rfl
      | vbool b => rfl
      | vnum n => rfl
      | vstr s => rfl
      | varr l => rfl

theorem isObj_objAssign (o : Val) (upd : List (String × Val)) :
    (objAssign o upd).isObj = true := rfl

theorem any_congr_mem {α : Type} {l : List α} {p q : α → Bool}
    (h : ∀ x ∈ l, p x = q x) : l.any p = l.any q := by
  induction l with
  | nil => rfl
  | cons x xs ih =>
    simp only [List.any_cons, h x (by simp),
      ih (fun y hy => h y (by simp [hy]))]

theorem hasKey_objAssign (o : Val) (upd : List (String × Val)) (k : String) :
    (objAssign o upd).hasKey k = (o.hasKey k || upd.any (fun q => q.1 = k)) := by
  have hOA : (objAssign o upd).fieldsOf =
      (o.fieldsOf.map fun p =>
        match upd.find? (fun q => q.1 = p.1) with
        | some q => (p.1, q.2)
        | none => p) ++
      upd.filter (fun q => ¬ o.fieldsOf.any (fun p => p.1 = q.1)) := rfl
  rw [Val.hasKey, Val.hasKey, hOA, List.any_append, List.any_map]
  have h1 : (o.fieldsOf.any ((fun p : String × Val => decide (p.1 = k)) ∘ fun p =>
      match upd.find? (fun q => q.1 = p.1) with
      | some q => (p.1, q.2)
      | none => p))
      = o.fieldsOf.any (fun p => p.1 = k) := by
    apply any_congr_mem
    intro p _
    simp only [Function.comp_apply]
    cases upd.find? (fun q => q.1 = p.1) <;> rfl
  rw [h1]
  by_cases ho : o.fieldsOf.any (fun p => p.1 = k) = true
  · simp [ho]
  · simp only [ho, Bool.false_or]
    rw [List.any_filter]
    apply any_congr_mem
    intro q _
    by_cases hqk : q.1 = k
    · have hall : ∀ (a : String) (b : Val), (a, b) ∈ o.fieldsOf → ¬ a = k := by
        intro a b hab hak
        apply ho
        exact List.any_eq_true.mpr ⟨(a, b), hab, by simpa using hak⟩
      simp only [hqk]
      simp
      exact hall
    · simp [hqk]

theorem isObj_setKey (e : Val) (k : String) (v : Val) :
    (e.setKey k v).isObj = e.isObj := by
  cases e
  case vobj fields =>
    simp only [Val.setKey]
    split <;> rfl
  all_goals rfl

theorem getField_setKey_self (e : Val) (he : e.isObj = true) (k : String) (v : Val) :
    (e.setKey k v).getField k = v := by
  cases e
  case undef => simp [Val.isObj] at he
  case vnull => simp [Val.isObj] at he
  case vbool b => simp [Val.isObj] at he
  case vnum n => simp [Val.isObj] at he
  case vstr s => simp [Val.isObj] at he
  case varr l => simp [Val.isObj] at he
  case vobj fields =>
  simp only [Val.setKey]
  by_cases h : fields.any (fun p => p.1 = k) = true
  · rw [if_pos h, getField_vobj]
    have hf : (fields.map fun p => if p.1 = k then (k, v) else p).find?
        (fun p => p.1 = k) =
        (fields.find? (fun p => p.1 = k)).map (fun p => if p.1 = k then (k, v) else p) := by
      rw [List.find?_map]
      apply congrArg
      apply find?_congr_mem
      intro p _
      by_cases hp : p.1 = k
      · simp [hp]
      · simp [hp]
    rw [hf]
    have hs : (fields.find? (fun p => p.1 = k)).isSome := by
      rw [List.find?_isSome]
      simpa [List.any_eq_true] using h
    obtain ⟨p0, hp0⟩ := Option.isSome_iff_exists.mp hs
    rw [hp0, Option.map_some']
    have hp0k : p0.1 = k := by simpa using List.find?_some hp0
    simp [hp0k]
  · rw [if_neg h, getField_vobj, List.find?_append]
    have hnone : fields.find? (fun p => p.1 = k) = none := by
      rw [List.find?_eq_none]
      intro p hp
      intro hpk
      exact h (List.any_eq_true.mpr ⟨p, hp, hpk⟩)
    rw [hnone, Option.none_or]
    simp [List.find?]

theorem getField_setKey_ne (e : Val) (k k2 : String) (v : Val)
    (hne : ¬ k2 = k) : (e.setKey k v).getField k2 = e.getField k2 := by
  have hkne : ¬ k = k2 := fun hc => hne hc.symm
  cases e
  case vobj fields =>
    simp only [Val.setKey]
    by_cases h : fields.any (fun p => p.1 = k) = true
    · rw [if_pos h, getField_vobj, getField_vobj]
      have hf : (fields.map fun p => if p.1 = k then (k, v) else p).find?
          (fun p => p.1 = k2) =
          (fields.find? (fun p => p.1 = k2)).map
            (fun p => if p.1 = k then (k, v) else p) := by
        rw [List.find?_map]
        apply congrArg
        apply find?_congr_mem
        intro p _
        by_cases hp : p.1 = k
        · simp [Function.comp_apply, hp, hkne]
        · simp [Function.comp_apply, hp]
      rw [hf]
      cases hx : fields.find? (fun p => p.1 = k2) with
      | none => rfl
      | some p0 =>
        have hp0 : p0.1 = k2 := by simpa using List.find?_some hx
        have hp0k : ¬ p0.1 = k := hp0 ▸ hne
        rw [Option.map_some']
        simp [hp0k]
    · rw [if_neg h, getField_vobj, getField_vobj, List.find?_append]
      have h2 : ([((k, v))] : List (String × Val)).find? (fun p => p.1 = k2) = none := by
        simp [List.find?, hkne]
      rw [h2]
      cases fields.find? (fun p => p.1 = k2) <;> rfl
  all_goals rfl

theorem setKey_setKey_self (e : Val) (k : String) (v w : Val) :
    (e.setKey k v).setKey k w = e.setKey k w := by
  cases e
  case vobj fields =>
    simp only [Val.setKey]
    by_cases h : fields.any (fun p => p.1 = k) = true
    · rw [if_pos h]
      have hkeys : ((fields.map fun p => if p.1 = k then (k, v) else p).any
          fun p => p.1 = k) = true := by
        rw [List.any_map]
        refine Eq.trans (any_congr_mem (fun p _ => ?_)) h
        by_cases hp : p.1 = k
        · simp [Function.comp_apply, hp]
        · simp [Function.comp_apply, hp]
      simp only [Val.setKey]
      rw [if_pos hkeys, if_pos h, List.map_map]
      congr 1
      apply List.map_congr_left
      intro p _
      by_cases hp : p.1 = k
      · simp [Function.comp_apply, hp]
      · simp [Function.comp_apply, hp]
    · rw [if_neg h]
      have hkeys : ((fields ++ [(k, v)]).any fun p => p.1 = k) = true := by
        simp [List.any_append]
      simp only [Val.setKey]
      rw [if_pos hkeys, if_neg h, List.map_append]
      have hnk : ∀ p ∈ fields, ¬ p.1 = k := by
        intro p hp hpk
        exact h (List.any_eq_true.mpr ⟨p, hp, by simpa using hpk⟩)
      have h1 : (fields.map fun p => if p.1 = k then (k, w) else p) = fields := by
        have := List.map_congr_left (l := fields)
          (f := fun p : String × Val => if p.1 = k then (k, w) else p) (g := id)
          (fun p hp => by simp [hnk p hp])
        simpa using this
      rw [h1]
      simp
  all_goals rfl

theorem getField_removeKey_ne (e : Val) (k k2 : String) (hne : ¬ k2 = k) :
    (e.removeKey k).getField k2 = e.getField k2 := by
  cases e
  case vobj fields =>
    simp only [Val.removeKey]
    have hfe : (fields.filter fun q => ¬ q.1 = k).find? (fun p => p.1 = k2) =
        fields.find? (fun p => p.1 = k2) := by
      rw [List.find?_filter]
      apply find?_congr_mem
      intro q _
      by_cases hq : q.1 = k2
      · simp [hq, hne]
      · simp [hq]
    rw [getField_vobj, getField_vobj, hfe]
  all_goals rfl

theorem isObj_removeKey (e : Val) (k : String) :
    (e.removeKey k).isObj = e.isObj := by
  cases e <;> rfl

theorem mem_dedupFirst {α : Type} [DecidableEq α] (a : α) (l : List α) :
    a ∈ dedupFirst l ↔ a ∈ l := by
  induction l using dedupFirst.induct with
  | case1 => simp [dedupFirst]
  | case2 x xs ih =>
    rw [dedupFirst]
    by_cases hax : a = x
    · simp [hax]
    · simp only [List.mem_cons, hax, false_or, ih, List.mem_filter]
      simp [hax]

theorem nodup_dedupFirst {α : Type} [DecidableEq α] (l : List α) :
    (dedupFirst l).Nodup := by
  induction l using dedupFirst.induct with
  | case1 => simp [dedupFirst]
  | case2 x xs ih =>
    rw [dedupFirst, List.nodup_cons]
    refine ⟨fun hmem => ?_, ih⟩
    have := (mem_dedupFirst x _).mp hmem
    simp at this

theorem filter_dedupFirst {α : Type} [DecidableEq α] (p : α → Bool) (l : List α) :
    (dedupFirst l).filter p = dedupFirst (l.filter p) := by
  induction l using dedupFirst.induct with
  | case1 => simp [dedupFirst]
  | case2 x xs ih =>
    by_cases hp : p x = true
    · simp only [dedupFirst, List.filter_cons, hp, if_true, ih, List.filter_filter]
      congr 1
      congr 1
      apply List.filter_congr
      intro b _
      exact Bool.and_comm _ _
    · simp only [dedupFirst, List.filter_cons, hp, Bool.false_eq_true, if_false,
        ih, List.filter_filter]
      congr 1
      apply List.filter_congr
      intro b _
      by_cases hbx : b = x
      · simp [hbx, hp]
      · simp [hbx]

theorem dedupFirst_append_left {α : Type} [DecidableEq α] (a b : List α) :
    dedupFirst (dedupFirst a ++ b) = dedupFirst (a ++ b) := by
  induction a using dedupFirst.induct generalizing b with
  | case1 => simp [dedupFirst]
  | case2 x xs ih =>
    have hfi : (xs.filter (fun y => ¬ y = x)).filter (fun y => ¬ y = x) =
        xs.filter (fun y => ¬ y = x) := by
      rw [List.filter_filter]
      apply List.filter_congr
      intro c _
      by_cases hcx : c = x <;> simp [hcx]
    rw [show dedupFirst (x :: xs) =
        x :: dedupFirst (xs.filter fun y => ¬ y = x) from by rw [dedupFirst]]
    rw [List.cons_append]
    rw [show dedupFirst (x :: (dedupFirst (xs.filter fun y => ¬ y = x) ++ b)) =
        x :: dedupFirst ((dedupFirst (xs.filter fun y => ¬ y = x) ++ b).filter
          fun y => ¬ y = x) from by rw [dedupFirst]]
    rw [List.filter_append, filter_dedupFirst, hfi, ih]
    rw [← List.filter_append]
    rw [show (x :: xs) ++ b = x :: (xs ++ b) from rfl]
    rw [show dedupFirst (x :: (xs ++ b)) =
        x :: dedupFirst ((xs ++ b).filter fun y => ¬ y = x) from by rw [dedupFirst]]

theorem jsToString_vstr (s : String) : jsToString (.vstr s) = s := rfl

theorem orderedInsert_map_vstr (x : String) (l : List String) :
    (l.map Val.vstr).orderedInsert jsLe (.vstr x) =
      (l.orderedInsert (· ≤ ·) x).map Val.vstr := by
  induction l with
  | nil => rfl
  | cons y ys ih =>
    simp only [List.map_cons, List.orderedInsert]
    by_cases h : x ≤ y
    · rw [if_pos (show jsLe (.vstr x) (.vstr y) from h), if_pos h]
      simp
    · rw [if_neg (show ¬ jsLe (.vstr x) (.vstr y) from h), if_neg h,
        List.map_cons, ih]

theorem jsSortVals_map_vstr (l : List String) :
    jsSortVals (l.map Val.vstr) = (sortStrings l).map Val.vstr := by
  induction l with
  | nil => rfl
  | cons x xs ih =>
    simp only [jsSortVals, sortStrings, List.map_cons, List.insertionSort] at *
    rw [ih, orderedInsert_map_vstr]

theorem sortStrings_sorted (l : List String) :
    (sortStrings l).Sorted (· ≤ ·) :=
  List.sorted_insertionSort _ l

theorem sortStrings_perm (l : List String) : List.Perm (sortStrings l) l :=
  List.perm_insertionSort _ l

theorem sortStrings_eq_of_perm {l1 l2 : List String} (h : List.Perm l1 l2) :
    sortStrings l1 = sortStrings l2 :=
  List.eq_of_perm_of_sorted
    ((sortStrings_perm l1).trans (h.trans (sortStrings_perm l2).symm))
    (sortStrings_sorted l1) (sortStrings_sorted l2)

-- ===========================================================================
-- Merge machinery lemmas
-- ===========================================================================

theorem getField_unionInto_ne (e : Val) (cls : List Val) (k : String)
    (h : ¬ k = "_classes") : (unionInto e cls).getField k = e.getField k :=
  getField_setKey_ne e "_classes" k _ h

theorem isObj_unionInto (e : Val) (cls : List Val) :
    (unionInto e cls).isObj = e.isObj :=
  isObj_setKey e "_classes" _

theorem classesOf_unionInto (e : Val) (he : e.isObj = true) (cls : List Val) :
    classesOfVal (unionInto e cls) = dedupFirst (classesOfVal e ++ cls) := by
  rw [classesOfVal, unionInto, getField_setKey_self e he, Val.asList]

theorem find?_map_keyfix {β : Type} (m : List (Val × β)) (g : Val × β → Val × β)
    (hg : ∀ q, (g q).1 = q.1) (v : Val) :
    (m.map g).find? (fun p => p.1 = v) =
      (m.find? (fun p => p.1 = v)).map g := by
  rw [List.find?_map]
  apply congrArg
  apply find?_congr_mem
  intro q _
  simp only [Function.comp_apply, hg q]

theorem mergeStep_eq_skip (m : List (Val × Val)) (s : Val)
    (h : (s.getField "name").truthy = false) : mergeStep m s = m := by
  simp only [mergeStep]
  rw [if_pos (show ¬ ((s.getField "name").truthy = true) from by simp [h])]

theorem mergeStep_eq_upd (m : List (Val × Val)) (s : Val)
    (h : (s.getField "name").truthy = true)
    (hf : (m.any fun p => p.1 = s.getField "name") = true) :
    mergeStep m s = m.map fun q =>
      if q.1 = s.getField "name" then
        (s.getField "name", unionInto q.2 (classesOfVal s))
      else q := by
  simp only [mergeStep]
  rw [if_neg (show ¬ ¬ ((s.getField "name").truthy = true) from by simp [h]),
    if_pos hf]
  rfl

theorem mergeStep_eq_seed (m : List (Val × Val)) (s : Val)
    (h : (s.getField "name").truthy = true)
    (hf : (m.any fun p => p.1 = s.getField "name") = false) :
    mergeStep m s = m ++ [(s.getField "name", s)] := by
  simp only [mergeStep]
  rw [if_neg (show ¬ ¬ ((s.getField "name").truthy = true) from by simp [h]),
    if_neg (show ¬ ((m.any fun p => p.1 = s.getField "name") = true) from by
      simp [hf])]

theorem mapInv_mergeStep {m : List (Val × Val)} (hinv : MapInv m) (s : Val)
    (hs : s.isObj = true) : MapInv (mergeStep m s) := by
  by_cases ht : (s.getField "name").truthy = true
  · by_cases hf : (m.any fun p => p.1 = s.getField "name") = true
    · rw [mergeStep_eq_upd m s ht hf]
      obtain ⟨hnd, hval⟩ := hinv
      constructor
      · have hkeys : ((m.map fun q =>
            if q.1 = s.getField "name" then
              (s.getField "name", unionInto q.2 (classesOfVal s))
            else q).map Prod.fst) = m.map Prod.fst := by
          rw [List.map_map]
          apply List.map_congr_left
          intro q _
          by_cases hq : q.1 = s.getField "name"
          · simp [Function.comp_apply, hq]
          · simp [Function.comp_apply, hq]
        rw [hkeys]
        exact hnd
      · intro p hp
        obtain ⟨q, hq, hqp⟩ := List.mem_map.mp hp
        by_cases hqk : q.1 = s.getField "name"
        · rw [if_pos hqk] at hqp
          obtain ⟨h1, h2, h3⟩ := hval q hq
          refine ⟨?_, ?_, ?_⟩
          · rw [← hqp]; exact hqk ▸ h1
          · rw [← hqp]
            simp only
            rw [getField_unionInto_ne q.2 _ "name" (by decide), h2, hqk]
          · rw [← hqp]
            simp only
            rw [isObj_unionInto]
            exact h3
        · rw [if_neg hqk] at hqp
          exact hqp ▸ hval q hq
    · have hf2 : (m.any fun p => p.1 = s.getField "name") = false :=
        Bool.eq_false_iff.mpr hf
      rw [mergeStep_eq_seed m s ht hf2]
      obtain ⟨hnd, hval⟩ := hinv
      constructor
      · rw [List.map_append, List.nodup_append]
        refine ⟨hnd, by simp, ?_⟩
        intro a ha hb
        simp only [List.map_cons, List.map_nil, List.mem_singleton] at hb
        subst hb
        have hany : (m.any fun p => p.1 = s.getField "name") = true := by
          rw [List.any_eq_true]
          obtain ⟨q, hq, hqa⟩ := List.mem_map.mp ha
          exact ⟨q, hq, by simp [hqa]⟩
        exact absurd hany hf
      · intro p hp
        rcases List.mem_append.mp hp with hp1 | hp2
        · exact hval p hp1
        · simp only [List.mem_singleton] at hp2
          subst hp2
          exact ⟨ht, rfl, hs⟩
  · rw [mergeStep_eq_skip m s (by simpa using ht)]
    exact hinv

theorem mapInv_mergeFold (l : List Val) :
    ∀ (m : List (Val × Val)), (∀ s ∈ l, s.isObj = true) → MapInv m →
    MapInv (mergeFold l m) := by
  induction l with
  | nil => exact fun m _ hinv => hinv
  | cons s l2 ih =>
    intro m hl hinv
    have h1 : mergeFold (s :: l2) m = mergeFold l2 (mergeStep m s) := rfl
    rw [h1]
    exact ih (mergeStep m s) (fun x hx => hl x (List.mem_cons_of_mem _ hx))
      (mapInv_mergeStep hinv s (hl s (List.mem_cons_self _ _)))

/-- The per-entry update map of `mergeStep` preserves keys, so `find?`
commutes with it. -/
theorem find?_mergeUpd (m : List (Val × Val)) (s v : Val) :
    ((m.map fun q =>
        if q.1 = s.getField "name" then
          (s.getField "name", unionInto q.2 (classesOfVal s))
        else q).find? (fun p => p.1 = v)) =
      (m.find? (fun p => p.1 = v)).map fun q =>
        if q.1 = s.getField "name" then
          (s.getField "name", unionInto q.2 (classesOfVal s))
        else q := by
  apply find?_map_keyfix
  intro q
  by_cases hq : q.1 = s.getField "name"
  · simp [hq]
  · simp [hq]

/-- Characterisation of a key lookup in the merge map after folding a
record list into it: the stored record for a truthy name `v` is the
first-seen record with that name, with every later occurrence's class tag
unioned into its `_classes` field. -/
theorem mergeFold_find? (v : Val) (hv : v.truthy = true) (l : List Val) :
    ∀ (m : List (Val × Val)), (∀ s ∈ l, s.isObj = true) → MapInv m →
    (mergeFold l m).find? (fun p => p.1 = v) =
      match m.find? (fun p => p.1 = v) with
      | some p =>
        some (v, (occsOf v l).foldl
          (fun e occ => unionInto e (classesOfVal occ)) p.2)
      | none =>
        match occsOf v l with
        | [] => none
        | s0 :: rest =>
          some (v, rest.foldl (fun e occ => unionInto e (classesOfVal occ)) s0) := by
  induction l with
  | nil =>
    intro m _ _
    simp only [mergeFold, List.foldl_nil, occsOf, List.filter_nil]
    cases hm : m.find? (fun p => p.1 = v) with
    | none => rfl
    | some p =>
      have hp : p.1 = v := by simpa using List.find?_some hm
      simp only [List.foldl_nil, ← hp]
  | cons s l2 ih =>
    intro m hl hinv
    have hl2 : ∀ x ∈ l2, x.isObj = true :=
      fun x hx => hl x (List.mem_cons_of_mem _ hx)
    have hs : s.isObj = true := hl s (List.mem_cons_self _ _)
    have hstep : mergeFold (s :: l2) m = mergeFold l2 (mergeStep m s) := rfl
    rw [hstep]
    by_cases ht : (s.getField "name").truthy = true
    · by_cases heq : s.getField "name" = v
      · -- the head record is an occurrence of v
        have hocc : occsOf v (s :: l2) = s :: occsOf v l2 := by
          rw [occsOf, List.filter_cons, if_pos (by simp [heq])]
          rfl
        by_cases hf : (m.any fun p => p.1 = s.getField "name") = true
        · -- v is already a key: the entry is updated in place
          have hinv2 : MapInv (mergeStep m s) := mapInv_mergeStep hinv s hs
          rw [mergeStep_eq_upd m s ht hf] at hinv2 ⊢
          rw [ih _ hl2 hinv2, find?_mergeUpd]
          have hsome : (m.find? fun p => p.1 = v).isSome := by
            rw [List.find?_isSome]
            obtain ⟨q, hq, hq2⟩ := List.any_eq_true.mp hf
            exact ⟨q, hq, by simp only [heq] at hq2; exact hq2⟩
          obtain ⟨p, hp⟩ := Option.isSome_iff_exists.mp hsome
          have hp1 : p.1 = v := by simpa using List.find?_some hp
          rw [hp, Option.map_some']
          rw [if_pos (by rw [hp1, heq])]
          simp only [hocc, List.foldl_cons, heq]
        · -- v is not yet a key: the record seeds the entry
          have hf2 : (m.any fun p => p.1 = s.getField "name") = false :=
            Bool.eq_false_iff.mpr hf
          have hinv2 : MapInv (mergeStep m s) := mapInv_mergeStep hinv s hs
          rw [mergeStep_eq_seed m s ht hf2] at hinv2 ⊢
          rw [ih _ hl2 hinv2]
          have hmnone : m.find? (fun p => p.1 = v) = none := by
            rw [List.find?_eq_none]
            intro q hq
            have := List.any_eq_false.mp hf2 q hq
            simpa [heq] using this
          rw [List.find?_append, hmnone, Option.none_or]
          have hone : ([(s.getField "name", s)].find? fun p => p.1 = v) =
              some (s.getField "name", s) := by
            simp [List.find?, heq]
          rw [hone, hocc]
      · -- the head record has a different name
        have hocc : occsOf v (s :: l2) = occsOf v l2 := by
          rw [occsOf, List.filter_cons, if_neg (by simp [heq])]
          rfl
        by_cases hf : (m.any fun p => p.1 = s.getField "name") = true
        · have hinv2 : MapInv (mergeStep m s) := mapInv_mergeStep hinv s hs
          rw [mergeStep_eq_upd m s ht hf] at hinv2 ⊢
          rw [ih _ hl2 hinv2, find?_mergeUpd]
          cases hm : m.find? (fun p => p.1 = v) with
          | none => rw [Option.map_none', hocc]
          | some p =>
            have hp1 : p.1 = v := by simpa using List.find?_some hm
            rw [Option.map_some', if_neg (by rw [hp1]; exact fun hc => heq hc.symm)]
            rw [hocc]
        · have hf2 : (m.any fun p => p.1 = s.getField "name") = false :=
            Bool.eq_false_iff.mpr hf
          have hinv2 : MapInv (mergeStep m s) := mapInv_mergeStep hinv s hs
          rw [mergeStep_eq_seed m s ht hf2] at hinv2 ⊢
          rw [ih _ hl2 hinv2]
          rw [List.find?_append]
          have hone : ([(s.getField "name", s)].find? fun p => p.1 = v) = none := by
            simp [List.find?, heq]
          rw [hone, Option.or_none, hocc]
    · have ht2 : (s.getField "name").truthy = false := Bool.eq_false_iff.mpr ht
      rw [mergeStep_eq_skip m s ht2]
      have hocc : occsOf v (s :: l2) = occsOf v l2 := by
        have hne : ¬ (s.getField "name" = v) := by
          intro hc
          rw [hc, hv] at ht2
          exact Bool.true_eq_false.mp ht2
        rw [occsOf, List.filter_cons, if_neg (by simp [hne])]
        rfl
      rw [ih m hl2 hinv, hocc]

-- ===========================================================================
-- Enhancement and finalisation field lemmas
-- ===========================================================================

theorem truthy_jsOr (a b : Val) : (jsOr a b).truthy = (a.truthy || b.truthy) := by
  unfold jsOr
  by_cases h : a.truthy = true <;> simp [h]

theorem find?_none_of_not_mem_keys {upd : List (String × Val)} {k : String}
    (h : ¬ k ∈ upd.map Prod.fst) : upd.find? (fun q => q.1 = k) = none := by
  rw [List.find?_eq_none]
  intro x hx hxk
  exact h (List.mem_map.mpr ⟨x, hx, by simpa using hxk⟩)

theorem enhanceSpellData_isObj (s : Val) (cn : String) (sm : SourceMap) :
    (enhanceSpellData s cn sm).isObj = true := rfl

theorem enhanceItemData_isObj (i : Val) (sm : SourceMap) (m : Int → Option String) :
    (enhanceItemData i sm m).isObj = true := rfl

theorem enhanceSpellData_classes (s : Val) (cn : String) (sm : SourceMap) :
    (enhanceSpellData s cn sm).getField "_classes" = .varr [.vstr cn] := by
  unfold enhanceSpellData
  rw [getField_objAssign]
  simp [List.find?]

theorem enhanceSpellData_name (s : Val) (cn : String) (sm : SourceMap) :
    (enhanceSpellData s cn sm).getField "name" =
      jsOr ((jsOr (s.getField "definition") s).getField "name")
        (jsOr (s.getField "name") (.vstr "Unknown Spell")) := by
  unfold enhanceSpellData
  rw [getField_objAssign]
  simp [List.find?]

theorem enhanceSpellData_name_truthy (s : Val) (cn : String) (sm : SourceMap) :
    ((enhanceSpellData s cn sm).getField "name").truthy = true := by
  rw [enhanceSpellData_name, truthy_jsOr, truthy_jsOr]
  simp [Val.truthy]

theorem enhanceSpellData_preserves (s : Val) (cn : String) (sm : SourceMap)
    (k : String) (hk : ¬ k ∈ spellEnhKeys) :
    (enhanceSpellData s cn sm).getField k = s.getField k := by
  unfold enhanceSpellData
  rw [getField_objAssign,
    find?_none_of_not_mem_keys (by
      intro hmem
      apply hk
      simpa [spellEnhKeys] using hmem)]

theorem enhanceItemData_preserves (i : Val) (sm : SourceMap)
    (m : Int → Option String) (k : String) (hk : ¬ k ∈ itemEnhKeys) :
    (enhanceItemData i sm m).getField k = i.getField k := by
  unfold enhanceItemData
  rw [getField_objAssign,
    find?_none_of_not_mem_keys (by
      intro hmem
      apply hk
      simpa [itemEnhKeys] using hmem)]

theorem enhanceSpellData_hasKey (s : Val) (cn : String) (sm : SourceMap)
    (k : String) (hk : s.hasKey k = true) :
    (enhanceSpellData s cn sm).hasKey k = true := by
  unfold enhanceSpellData
  rw [hasKey_objAssign, hk, Bool.true_or]

theorem enhanceItemData_hasKey (i : Val) (sm : SourceMap)
    (m : Int → Option String) (k : String) (hk : i.hasKey k = true) :
    (enhanceItemData i sm m).hasKey k = true := by
  unfold enhanceItemData
  rw [hasKey_objAssign, hk, Bool.true_or]

theorem enhanceItemData_rarityName (i : Val) (sm : SourceMap)
    (m : Int → Option String) :
    (enhanceItemData i sm m).getField "rarityName" = rarityNameOf m i := by
  unfold enhanceItemData
  rw [getField_objAssign]
  simp [List.find?]

theorem enhanceItemData_sources (i : Val) (sm : SourceMap)
    (m : Int → Option String) :
    (enhanceItemData i sm m).getField "sources" = i.getField "sources" := by
  apply enhanceItemData_preserves
  simp [itemEnhKeys]

theorem finalizeSpell_avail (sp : Val) :
    (finalizeSpell sp).getField "availableToClasses" =
      .varr (jsSortVals (classesOfVal sp)) := by
  unfold finalizeSpell
  rw [getField_objAssign]
  simp [List.find?, classesOfVal]

theorem finalizeSpell_sub (sp : Val) :
    (finalizeSpell sp).getField "availableToSubclasses" = .varr [] := by
  unfold finalizeSpell
  rw [getField_objAssign]
  simp [List.find?]

theorem finalizeSpell_preserves (sp : Val) (k : String)
    (h1 : ¬ k = "availableToClasses") (h2 : ¬ k = "availableToSubclasses")
    (h3 : ¬ k = "_classes") :
    (finalizeSpell sp).getField k = sp.getField k := by
  unfold finalizeSpell
  rw [getField_objAssign,
    find?_none_of_not_mem_keys (by
      intro hmem
      simp only [List.map_cons, List.map_nil, List.mem_cons,
        List.not_mem_nil, or_false, List.mem_singleton] at hmem
      rcases hmem with hc | hc
      · exact h1 hc
      · exact h2 hc)]
  exact getField_removeKey_ne _ _ _ h3

theorem finalizeSpell_name (sp : Val) :
    (finalizeSpell sp).getField "name" = sp.getField "name" :=
  finalizeSpell_preserves sp "name" (by decide) (by decide) (by decide)

-- ===========================================================================
-- Per-class result lemmas
-- ===========================================================================

theorem classResult_shape (r : UpstreamResp) (cn : String) (sm : SourceMap) :
    ∀ e ∈ fetchSpellsByClassPure r cn sm,
      ∃ raw, e = enhanceSpellData raw cn sm := by
  intro e he
  cases r with
  | err => simp [fetchSpellsByClassPure] at he
  | ok json =>
    rw [fetchSpellsByClassPure] at he
    by_cases hc : (¬ (json.getField "success").truthy = true ∨
        ¬ (json.getField "data").truthy = true)
    · rw [if_pos hc] at he
      simp at he
    · rw [if_neg hc] at he
      cases hd : json.getField "data" with
      | varr l =>
        rw [hd] at he
        obtain ⟨raw, _, hr⟩ := List.mem_map.mp he
        exact ⟨raw, hr.symm⟩
      | undef => rw [hd] at he; simp at he
      | vnull => rw [hd] at he; simp at he
      | vbool b => rw [hd] at he; simp at he
      | vnum n => rw [hd] at he; simp at he
      | vstr s2 => rw [hd] at he; simp at he
      | vobj f => rw [hd] at he; simp at he

theorem classResult_isObj (r : UpstreamResp) (cn : String) (sm : SourceMap) :
    ∀ e ∈ fetchSpellsByClassPure r cn sm, e.isObj = true := by
  intro e he
  obtain ⟨raw, hr⟩ := classResult_shape r cn sm e he
  rw [hr]
  exact enhanceSpellData_isObj raw cn sm

theorem classResult_classes (r : UpstreamResp) (cn : String) (sm : SourceMap) :
    ∀ e ∈ fetchSpellsByClassPure r cn sm, classesOfVal e = [.vstr cn] := by
  intro e he
  obtain ⟨raw, hr⟩ := classResult_shape r cn sm e he
  rw [hr, classesOfVal, enhanceSpellData_classes, Val.asList]

theorem flatClasses_isObj (resp : Int → UpstreamResp) (sm : SourceMap) :
    ∀ e ∈ (classResultsOf resp sm).flatten, e.isObj = true := by
  intro e he
  obtain ⟨l, hl, hel⟩ := List.mem_flatten.mp he
  obtain ⟨c, _, hc⟩ := List.mem_map.mp hl
  exact classResult_isObj _ _ _ e (hc ▸ hel)

-- ===========================================================================
-- Closed form of the class-union fold
-- ===========================================================================

theorem getField_foldl_unionInto (rest : List Val) :
    ∀ (s0 : Val) (k : String), ¬ k = "_classes" →
    ((rest.foldl (fun e occ => unionInto e (classesOfVal occ)) s0).getField k) =
      s0.getField k := by
  induction rest with
  | nil => intro s0 k _; rfl
  | cons r rest2 ih =>
    intro s0 k hk
    rw [List.foldl_cons, ih _ k hk, getField_unionInto_ne _ _ _ hk]

theorem isObj_foldl_unionInto (rest : List Val) :
    ∀ (s0 : Val),
    ((rest.foldl (fun e occ => unionInto e (classesOfVal occ)) s0).isObj) =
      s0.isObj := by
  induction rest with
  | nil => intro s0; rfl
  | cons r rest2 ih =>
    intro s0
    rw [List.foldl_cons, ih _, isObj_unionInto]

theorem classesOf_foldl_unionInto (rest : List Val) :
    ∀ (s0 : Val), s0.isObj = true → rest ≠ [] →
    classesOfVal (rest.foldl (fun e occ => unionInto e (classesOfVal occ)) s0) =
      dedupFirst (classesOfVal s0 ++ rest.flatMap classesOfVal) := by
  induction rest with
  | nil => intro s0 _ h; exact absurd rfl h
  | cons r rest2 ih =>
    intro s0 hs0 _
    rw [List.foldl_cons]
    by_cases hr2 : rest2 = []
    · subst hr2
      rw [List.foldl_nil, classesOf_unionInto s0 hs0]
      simp
    · rw [ih (unionInto s0 (classesOfVal r))
        (by rw [isObj_unionInto]; exact hs0) hr2]
      rw [classesOf_unionInto s0 hs0, dedupFirst_append_left]
      simp [List.append_assoc]

theorem foldl_unionInto_eq_setKey (rest : List Val) :
    ∀ (s0 : Val), s0.isObj = true → rest ≠ [] →
    (rest.foldl (fun e occ => unionInto e (classesOfVal occ)) s0) =
      s0.setKey "_classes"
        (.varr (dedupFirst (classesOfVal s0 ++ rest.flatMap classesOfVal))) := by
  induction rest with
  | nil => intro s0 _ h; exact absurd rfl h
  | cons r rest2 ih =>
    intro s0 hs0 _
    rw [List.foldl_cons]
    by_cases hr2 : rest2 = []
    · subst hr2
      rw [List.foldl_nil, unionInto]
      simp
    · rw [ih (unionInto s0 (classesOfVal r))
        (by rw [isObj_unionInto]; exact hs0) hr2]
      rw [classesOf_unionInto s0 hs0, unionInto, setKey_setKey_self,
        dedupFirst_append_left]
      simp [List.append_assoc]

-- ===========================================================================
-- Cache claims (C4, C5)
-- ===========================================================================

theorem find?_filter_not_key {β : Type} (l : List (String × β)) (k : String) :
    (l.filter fun q => ¬ q.1 = k).find? (fun p => p.1 = k) = none := by
  rw [List.find?_eq_none]
  intro x hx
  have h := (List.mem_filter.mp hx).2
  simpa using h

/-- Core TTL behaviour of `add` followed by `existsAt`, shared by the
cache theorems below. -/
theorem cacheAddTtl (c : CacheState) (k : String) (data : Val) (T Δ : Int)
    (hdata : data.truthy = true)
    (hne : ¬ (data.isArr = true ∧ data.asList.length = 0)) :
    (Δ ≤ c.ttlMs →
      ((c.add k data T).existsAt k (T + Δ)).1 = (true, data) ∧
      ((c.add k data T).existsAt k (T + Δ)).2 = c.add k data T) ∧
    (Δ > c.ttlMs →
      ((c.add k data T).existsAt k (T + Δ)).1 = (false, .vnull) ∧
      (((c.add k data T).existsAt k (T + Δ)).2.items.find?
        (fun p => p.1 = k)) = none) := by
  have hadd : c.add k data T =
      ⟨c.ttlMs, c.items.filter (fun q => ¬ q.1 = k) ++ [(k, ⟨data, T⟩)]⟩ := by
    rw [CacheState.add, if_neg]
    intro hcon
    rcases hcon with h1 | h2
    · rw [hdata] at h1; exact h1 rfl
    · exact hne h2
  have hfind : ((c.add k data T).items.find? (fun p => p.1 = k)) =
      some (k, ⟨data, T⟩) := by
    rw [hadd]
    simp only
    rw [List.find?_append, find?_filter_not_key, Option.none_or]
    simp [List.find?]
  constructor
  · intro hΔ
    have hexp : (c.add k data T).isExpired (T + Δ) T = false := by
      rw [CacheState.isExpired, hadd]
      simp only [decide_eq_false_iff_not, not_lt]
      omega
    rw [CacheState.existsAt, hfind]
    dsimp only
    rw [hexp]
    exact ⟨rfl, rfl⟩
  · intro hΔ
    have hexp : (c.add k data T).isExpired (T + Δ) T = true := by
      rw [CacheState.isExpired, hadd]
      simp only [decide_eq_true_eq]
      omega
    rw [CacheState.existsAt, hfind]
    dsimp only
    rw [hexp]
    refine ⟨rfl, ?_⟩
    exact find?_filter_not_key _ k

/-- C4 (corrected): an entry added at time `T` is reported as existing for
a read at `T+Δ` exactly when `Δ ≤ ttl` (the code expires strictly after
the TTL: `now - timestamp > ttl`), the hit leaves the cache unchanged, and
a read with `Δ > ttl` reports not-exists and removes the stored entry.
The added payload must be storable (truthy and not an empty array), or
`add` stores nothing at all. -/
theorem c4_cache_ttl (c : CacheState) (k : String) (data : Val) (T Δ : Int)
    (hdata : data.truthy = true)
    (hne : ¬ (data.isArr = true ∧ data.asList.length = 0)) :
    (Δ ≤ c.ttlMs →
      ((c.add k data T).existsAt k (T + Δ)).1 = (true, data) ∧
      ((c.add k data T).existsAt k (T + Δ)).2 = c.add k data T) ∧
    (Δ > c.ttlMs →
      ((c.add k data T).existsAt k (T + Δ)).1 = (false, .vnull) ∧
      (((c.add k data T).existsAt k (T + Δ)).2.items.find?
        (fun p => p.1 = k)) = none) :=
  cacheAddTtl c k data T Δ hdata hne

/-- Witness for `c4_cache_ttl` at a concrete instance. -/
theorem c4_cache_ttl_witness :
    ((((CacheState.mk0 5).add "k" (.vnum 7) 0).existsAt "k" (0 + 3)).1 =
      (true, .vnum 7)) ∧
    ((((CacheState.mk0 5).add "k" (.vnum 7) 0).existsAt "k" (0 + 9)).1 =
      (false, .vnull)) :=
  ⟨((c4_cache_ttl (CacheState.mk0 5) "k" (.vnum 7) 0 3 (by decide)
      (by decide)).1 (by decide)).1,
   ((c4_cache_ttl (CacheState.mk0 5) "k" (.vnum 7) 0 9 (by decide)
      (by decide)).2 (by decide)).1⟩

/-- C4 counterexample: the claim as stated says a read at `Δ = ttl`
reports not-exists, but the code reports the entry as existing there
(`5 ≥ ttl = 5`, yet `exists` is `true`). -/
theorem c4_counterexample :
    ((((CacheState.mk0 5).add "k" (.vnum 1) 0).existsAt "k" 5).1).1 = true ∧
    (5 : Int) - 0 ≥ (CacheState.mk0 5).ttlMs := by
  constructor
  · decide
  · decide

/-- C5 (confirmed): adding an empty-array payload stores nothing — the
state is unchanged — so when no unexpired entry is stored for the key, a
subsequent `exists` (at the same or any later time) still reports
not-exists. -/
theorem c5_no_empty_payload (c : CacheState) (k : String) (t t2 : Int)
    (hnov : c.hasValid k t = false) (hle : t ≤ t2) :
    c.add k (.varr []) t = c ∧
    ((c.add k (.varr []) t).existsAt k t2).1.1 = false := by
  have hadd : c.add k (.varr []) t = c := by
    rw [CacheState.add, if_pos]
    exact Or.inr ⟨rfl, rfl⟩
  refine ⟨hadd, ?_⟩
  rw [hadd, CacheState.existsAt]
  cases hf : c.items.find? (fun p => p.1 = k) with
  | none => rfl
  | some p =>
    rw [CacheState.hasValid, hf] at hnov
    dsimp only at hnov
    simp only [decide_eq_false_iff_not, not_not] at hnov
    have hexp2 : c.isExpired t2 p.2.timestamp = true := by
      rw [CacheState.isExpired] at hnov ⊢
      simp only [decide_eq_true_eq] at hnov ⊢
      omega
    dsimp only
    rw [hexp2]
    rfl

/-- Witness for `c5_no_empty_payload` at a concrete instance. -/
theorem c5_no_empty_payload_witness :
    (CacheState.mk0 5).add "k" (.varr []) 0 = CacheState.mk0 5 ∧
    (((CacheState.mk0 5).add "k" (.varr []) 0).existsAt "k" 1).1.1 = false :=
  c5_no_empty_payload (CacheState.mk0 5) "k" 0 1 (by decide) (by decide)

-- ===========================================================================
-- Rarity claim (C6)
-- ===========================================================================

/-- C6 (confirmed): an item with rarity id 0 gets `rarityName "Mundane"`, a
missing (`undefined`/`null`) rarity id defaults to id 0 and hence
`"Mundane"`, an id absent from the rarity map falls back to `"Mundane"`,
the result is never `"Unknown"`, and id 1 stays the distinct `"Common"`.
`RARITY_MAP` is modelled from the spec (its definition is not among the
provided sources); the spec fixes exactly the entries used here. -/
theorem c6_rarity_default (item : Val) (sm : SourceMap) :
    (rarityIdOf item = .vnum 0 →
      (enhanceItemData item sm RARITY_MAP).getField "rarityName" =
        .vstr "Mundane") ∧
    (rarityIdOf item = .undef ∨ rarityIdOf item = .vnull →
      (enhanceItemData item sm RARITY_MAP).getField "rarityName" =
        .vstr "Mundane") ∧
    (∀ n : Int, rarityIdOf item = .vnum n → RARITY_MAP n = none →
      (enhanceItemData item sm RARITY_MAP).getField "rarityName" =
        .vstr "Mundane") ∧
    (¬ (enhanceItemData item sm RARITY_MAP).getField "rarityName" =
      .vstr "Unknown") ∧
    (rarityIdOf item = .vnum 1 →
      (enhanceItemData item sm RARITY_MAP).getField "rarityName" =
        .vstr "Common") := by
  rw [enhanceItemData_rarityName item sm RARITY_MAP]
  refine ⟨?_, ?_, ?_, ?_, ?_⟩
  · intro h0
    rw [rarityNameOf, h0]
    simp [rarityIndex, RARITY_MAP, jsOr, Val.truthy]
  · intro hmiss
    rcases hmiss with h | h
    · rw [rarityNameOf, h]
      simp [rarityIndex, RARITY_MAP, jsOr, Val.truthy]
    · rw [rarityNameOf, h]
      simp [rarityIndex, RARITY_MAP, jsOr, Val.truthy]
  · intro n hn hnone
    rw [rarityNameOf, hn]
    have hn0 : ¬ n = 0 := by
      intro hc
      rw [RARITY_MAP] at hnone
      simp [hc] at hnone
    have hn1 : ¬ n = 1 := by
      intro hc
      rw [RARITY_MAP] at hnone
      simp [hc] at hnone
    simp [rarityIndex, RARITY_MAP, hn0, hn1, jsOr, Val.truthy]
  · rw [rarityNameOf]
    cases hrid : rarityIdOf item with
    | vnum n =>
      by_cases h0 : n = 0
      · simp [h0, rarityIndex, RARITY_MAP, jsOr, Val.truthy]
      · by_cases h1 : n = 1
        · simp [h0, h1, rarityIndex, RARITY_MAP, jsOr, Val.truthy]
        · simp [h0, h1, rarityIndex, RARITY_MAP, jsOr, Val.truthy]
    | undef => simp [rarityIndex, RARITY_MAP, jsOr, Val.truthy]
    | vnull => simp [rarityIndex, RARITY_MAP, jsOr, Val.truthy]
    | vbool b => simp [rarityIndex, RARITY_MAP, jsOr, Val.truthy]
    | vstr s => simp [rarityIndex, RARITY_MAP, jsOr, Val.truthy]
    | varr l => simp [rarityIndex, RARITY_MAP, jsOr, Val.truthy]
    | vobj f => simp [rarityIndex, RARITY_MAP, jsOr, Val.truthy]
  · intro h1
    rw [rarityNameOf, h1]
    simp [rarityIndex, RARITY_MAP, jsOr, Val.truthy]

/-- Witness for `c6_rarity_default` at concrete items. -/
theorem c6_rarity_default_witness :
    (enhanceItemData (.vobj [("rarity", .vnum 0)]) [] RARITY_MAP).getField
      "rarityName" = .vstr "Mundane" ∧
    (enhanceItemData (.vobj [("rarity", .vnum 1)]) [] RARITY_MAP).getField
      "rarityName" = .vstr "Common" ∧
    (enhanceItemData (.vobj [("rarity", .vnum 42)]) [] RARITY_MAP).getField
      "rarityName" = .vstr "Mundane" :=
  ⟨(c6_rarity_default (.vobj [("rarity", .vnum 0)]) []).1 (by decide),
   (c6_rarity_default (.vobj [("rarity", .vnum 1)]) []).2.2.2.2 (by decide),
   (c6_rarity_default (.vobj [("rarity", .vnum 42)]) []).2.2.1 42 (by decide)
     (by decide)⟩

-- ===========================================================================
-- Enhancement-additivity claim (C9)
-- ===========================================================================

/-- C9 counterexample: the claim as stated says every original field keeps
its original value, but `enhanceItemData` rewrites a falsy `name` (here
the empty string) to `"Unknown Item"`. -/
theorem c9_counterexample :
    (Val.vobj [("name", .vstr "")]).getField "name" = .vstr "" ∧
    (enhanceItemData (.vobj [("name", .vstr "")]) [] RARITY_MAP).getField
      "name" = .vstr "Unknown Item" := by
  constructor
  · decide
  · decide

/-- C9 (corrected): enhancement never deletes a field — every original key
remains bound on the enhanced record — and every field other than the
explicitly recomputed ones (`spellEnhKeys` for spells, `itemEnhKeys` for
items) keeps its original value; the recomputed fields may replace the
original value with the normalised one.  Finalisation of a merged spell
only removes the temporary `_classes` and adds the two availability
fields, preserving everything else. -/
theorem c9_enhancement_additive (sp it : Val) (cn : String) (sm : SourceMap)
    (m : Int → Option String) (k : String) :
    (sp.hasKey k = true → (enhanceSpellData sp cn sm).hasKey k = true) ∧
    (¬ k ∈ spellEnhKeys →
      (enhanceSpellData sp cn sm).getField k = sp.getField k) ∧
    (it.hasKey k = true → (enhanceItemData it sm m).hasKey k = true) ∧
    (¬ k ∈ itemEnhKeys →
      (enhanceItemData it sm m).getField k = it.getField k) ∧
    (¬ k = "availableToClasses" → ¬ k = "availableToSubclasses" →
      ¬ k = "_classes" →
      (finalizeSpell sp).getField k = sp.getField k) :=
  ⟨enhanceSpellData_hasKey sp cn sm k,
   enhanceSpellData_preserves sp cn sm k,
   enhanceItemData_hasKey it sm m k,
   enhanceItemData_preserves it sm m k,
   fun h1 h2 h3 => finalizeSpell_preserves sp k h1 h2 h3⟩

/-- Witness for `c9_enhancement_additive` at a concrete record. -/
theorem c9_enhancement_additive_witness :
    (enhanceItemData (.vobj [("weight", .vnum 3)]) [] RARITY_MAP).getField
      "weight" = (Val.vobj [("weight", .vnum 3)]).getField "weight" ∧
    (enhanceItemData (.vobj [("weight", .vnum 3)]) [] RARITY_MAP).hasKey
      "weight" = true :=
  ⟨(c9_enhancement_additive (.vobj []) (.vobj [("weight", .vnum 3)]) "Bard" []
      RARITY_MAP "weight").2.2.2.1 (by decide),
   (c9_enhancement_additive (.vobj []) (.vobj [("weight", .vnum 3)]) "Bard" []
      RARITY_MAP "weight").2.2.1 (by decide)⟩

-- ===========================================================================
-- Credential-validation claim (C7)
-- ===========================================================================

/-- C7 counterexample: the claim as stated says every `POST /api/content/*`
request validates the credential and answers 400 before any network call
when it is missing; but the content route mounts no validation middleware —
the `/items` branch with a missing credential answers 500 (the thrown hash
error), and a generic content path with no credential performs an anonymous
upstream call. -/
theorem c7_counterexample :
    (contentItemsRoute (.vobj []) (CacheState.mk0 3600000) 0 none).1.status
      = 500 ∧
    ¬ (contentItemsRoute (.vobj []) (CacheState.mk0 3600000) 0 none).1.status
      = 400 ∧
    (contentGenericRoute (.vobj []) (.ok (.vstr "payload"))).usedFetch = true ∧
    (contentGenericRoute (.vobj []) (.ok (.vstr "payload"))).status = 200 := by
  refine ⟨rfl, by decide, rfl, rfl⟩

/-- C7 (corrected): the validation middleware runs on `/api/validate-cookie`
and `/api/character/*` only — there a missing, non-string, or
out-of-bounds credential is answered 400 before any network call; the
`/api/content/*` route applies no credential validation: its `/items`
branch turns a missing credential into a 500 (still without network work),
and its generic branch performs the upstream call with no validation at
all. -/
theorem c7_validation (body : Val) (upstream : UpstreamResp)
    (cache : CacheState) (now : Int) (fo : Option ItemsResult)
    (st : Nat) (er msg : String)
    (hval : validateCobaltCookieMw body = some (st, er, msg)) :
    characterRoute body upstream = ⟨st, errBody er msg, false, false⟩ ∧
    (∀ data, (contentGenericRoute body (.ok data)).usedFetch = true) ∧
    ((body.getField "cobaltCookie").isStr = false →
      (contentItemsRoute body cache now fo).1.status = 500 ∧
      (contentItemsRoute body cache now fo).1.usedFetch = false) := by
  refine ⟨?_, fun data => rfl, ?_⟩
  · rw [characterRoute.eq_def, hval]
  · intro hstr
    cases hck : body.getField "cobaltCookie" with
    | vstr s => rw [hck, Val.isStr] at hstr; cases hstr
    | undef => rw [contentItemsRoute, hck]; exact ⟨rfl, rfl⟩
    | vnull => rw [contentItemsRoute, hck]; exact ⟨rfl, rfl⟩
    | vbool b => rw [contentItemsRoute, hck]; exact ⟨rfl, rfl⟩
    | vnum n => rw [contentItemsRoute, hck]; exact ⟨rfl, rfl⟩
    | varr l => rw [contentItemsRoute, hck]; exact ⟨rfl, rfl⟩
    | vobj f => rw [contentItemsRoute, hck]; exact ⟨rfl, rfl⟩

/-- Witness for `c7_validation` at a concrete request. -/
theorem c7_validation_witness :
    characterRoute (.vobj []) (.ok (.vstr "d")) =
      ⟨400, errBody "Invalid request" "Cobalt cookie is required",
        false, false⟩ ∧
    (contentItemsRoute (.vobj []) (CacheState.mk0 7) 0 none).1.status = 500 :=
  ⟨(c7_validation (.vobj []) (.ok (.vstr "d")) (CacheState.mk0 7) 0 none
      400 "Invalid request" "Cobalt cookie is required" (by decide)).1,
   ((c7_validation (.vobj []) (.ok (.vstr "d")) (CacheState.mk0 7) 0 none
      400 "Invalid request" "Cobalt cookie is required" (by decide)).2.2
      (by decide)).1⟩

-- ===========================================================================
-- Cache write-back claim (C10)
-- ===========================================================================

theorem contentItemsRoute_fresh (body : Val) (cookie : String)
    (cache : CacheState) (t : Int) (r : ItemsResult)
    (hc : body.getField "cobaltCookie" = .vstr cookie)
    (hb : (body.getField "bustCache").truthy = true) :
    contentItemsRoute body cache t (some r) =
      (⟨200, .varr r.items, false, true⟩,
        cache.add (contentCacheKey cookie (body.getField "sourceBookIds"))
          (.varr r.items) t) := by
  rw [contentItemsRoute.eq_def, hc]
  dsimp only
  rw [hb]
  simp

theorem contentItemsRoute_hit (body : Val) (cookie : String)
    (cache : CacheState) (t : Int) (fo : Option ItemsResult) (data : Val)
    (c1 : CacheState)
    (hc : body.getField "cobaltCookie" = .vstr cookie)
    (hb : (body.getField "bustCache").truthy = false)
    (hhit : cache.existsAt
      (contentCacheKey cookie (body.getField "sourceBookIds")) t =
      ((true, data), c1)) :
    contentItemsRoute body cache t fo = (⟨200, data, true, false⟩, c1) := by
  rw [contentItemsRoute.eq_def, hc]
  dsimp only
  rw [hb]
  simp only [Bool.false_eq_true, not_false_eq_true, if_true, hhit]

theorem contentSpellsRoute_fresh (body : Val) (cookie : String)
    (cache : CacheState) (t : Int) (sr : SpellsResult)
    (hc : body.getField "cobaltCookie" = .vstr cookie)
    (hb : (body.getField "bustCache").truthy = true) :
    contentSpellsRoute body cache t sr =
      (⟨200, .varr sr.spells, false, true⟩,
        cache.add (contentCacheKey cookie (body.getField "sourceBookIds"))
          (.varr sr.spells) t) := by
  rw [contentSpellsRoute.eq_def, hc]
  dsimp only
  rw [hb]
  simp

theorem contentSpellsRoute_hit (body : Val) (cookie : String)
    (cache : CacheState) (t : Int) (sr : SpellsResult) (data : Val)
    (c1 : CacheState)
    (hc : body.getField "cobaltCookie" = .vstr cookie)
    (hb : (body.getField "bustCache").truthy = false)
    (hhit : cache.existsAt
      (contentCacheKey cookie (body.getField "sourceBookIds")) t =
      ((true, data), c1)) :
    contentSpellsRoute body cache t sr = (⟨200, data, true, false⟩, c1) := by
  rw [contentSpellsRoute.eq_def, hc]
  dsimp only
  rw [hb]
  simp only [Bool.false_eq_true, not_false_eq_true, if_true, hhit]

/-- A freshly added non-empty array is a cache hit for any read within the
TTL, and the hit does not mutate the cache. -/
theorem existsAt_after_add (cache : CacheState) (key : String) (L : List Val)
    (hL : ¬ L = []) (t t2 : Int) (htl : t2 - t ≤ cache.ttlMs) :
    (cache.add key (.varr L) t).existsAt key t2 =
      ((true, .varr L), cache.add key (.varr L) t) := by
  have hlen : ¬ ((Val.varr L).isArr = true ∧ (Val.varr L).asList.length = 0) := by
    intro hcon
    rw [Val.asList] at hcon
    exact hL (List.length_eq_zero.mp hcon.2)
  have h4 := (cacheAddTtl cache key (.varr L) t (t2 - t) rfl hlen).1
    (by omega)
  have ht : t + (t2 - t) = t2 := by omega
  rw [ht] at h4
  have h1 := h4.1
  have h2 := h4.2
  cases hres : (cache.add key (.varr L) t).existsAt key t2 with
  | mk fst snd =>
    rw [hres] at h1 h2
    simp only at h1 h2
    rw [h1, h2]

/-- C10 (confirmed): with `bustCache` set, the cache-hit shortcut is
skipped, the fresh fetch answers the request, and its non-empty array is
written back under the computed key (credential digest plus sorted
source-filter suffix); a subsequent identical request without `bustCache`
(within the cache TTL) is answered from the cache with no fetch, for both
the items and the spells branch. -/
theorem c10_bustcache_writeback (body1 body2 : Val) (cookie : String)
    (idsVal : Val) (cache : CacheState) (t t2 : Int)
    (r : ItemsResult) (sr : SpellsResult)
    (h1c : body1.getField "cobaltCookie" = .vstr cookie)
    (h1b : (body1.getField "bustCache").truthy = true)
    (h1i : body1.getField "sourceBookIds" = idsVal)
    (h2c : body2.getField "cobaltCookie" = .vstr cookie)
    (h2b : (body2.getField "bustCache").truthy = false)
    (h2i : body2.getField "sourceBookIds" = idsVal)
    (htl : t2 - t ≤ cache.ttlMs)
    (hr : ¬ r.items = []) (hs : ¬ sr.spells = []) :
    ((contentItemsRoute body1 cache t (some r)).1 =
      ⟨200, .varr r.items, false, true⟩) ∧
    (∀ fo2, (contentItemsRoute body2
        (contentItemsRoute body1 cache t (some r)).2 t2 fo2).1 =
      ⟨200, .varr r.items, true, false⟩) ∧
    ((contentSpellsRoute body1 cache t sr).1 =
      ⟨200, .varr sr.spells, false, true⟩) ∧
    (∀ sr2, (contentSpellsRoute body2
        (contentSpellsRoute body1 cache t sr).2 t2 sr2).1 =
      ⟨200, .varr sr.spells, true, false⟩) := by
  have hfresh := contentItemsRoute_fresh body1 cookie cache t r h1c h1b
  have hfreshS := contentSpellsRoute_fresh body1 cookie cache t sr h1c h1b
  have httl : (cache.add (contentCacheKey cookie idsVal) (.varr r.items) t).ttlMs
      = cache.ttlMs := by
    rw [CacheState.add]
    split <;> rfl
  have httlS : (cache.add (contentCacheKey cookie idsVal) (.varr sr.spells) t).ttlMs
      = cache.ttlMs := by
    rw [CacheState.add]
    split <;> rfl
  refine ⟨by rw [hfresh], ?_, by rw [hfreshS], ?_⟩
  · intro fo2
    rw [hfresh]
    simp only [h1i]
    rw [contentItemsRoute_hit body2 cookie _ t2 fo2 (.varr r.items) _ h2c h2b ?hit]
    case hit =>
      rw [h2i]
      exact existsAt_after_add cache (contentCacheKey cookie idsVal) r.items hr
        t t2 htl
  · intro sr2
    rw [hfreshS]
    simp only [h1i]
    rw [contentSpellsRoute_hit body2 cookie _ t2 sr2 (.varr sr.spells) _ h2c h2b ?hit]
    case hit =>
      rw [h2i]
      exact existsAt_after_add cache (contentCacheKey cookie idsVal) sr.spells hs
        t t2 htl

/-- Witness for `c10_bustcache_writeback` at a concrete request pair. -/
theorem c10_bustcache_writeback_witness :
    (contentItemsRoute
      (.vobj [("cobaltCookie", .vstr "c"), ("bustCache", .vbool true)])
      (CacheState.mk0 100) 0 (some ⟨[.vnum 1], [], [], []⟩)).1 =
      ⟨200, .varr [.vnum 1], false, true⟩ ∧
    (contentItemsRoute (.vobj [("cobaltCookie", .vstr "c")])
      (contentItemsRoute
        (.vobj [("cobaltCookie", .vstr "c"), ("bustCache", .vbool true)])
        (CacheState.mk0 100) 0 (some ⟨[.vnum 1], [], [], []⟩)).2 10 none).1 =
      ⟨200, .varr [.vnum 1], true, false⟩ := by
  have h := c10_bustcache_writeback
    (.vobj [("cobaltCookie", .vstr "c"), ("bustCache", .vbool true)])
    (.vobj [("cobaltCookie", .vstr "c")]) "c" .undef (CacheState.mk0 100) 0 10
    ⟨[.vnum 1], [], [], []⟩ ⟨[.vnum 2], [], [], []⟩
    (by decide) (by decide) (by decide) (by decide) (by decide) (by decide)
    (by decide) (by decide) (by decide)
  exact ⟨h.1, h.2.1 none⟩

-- ===========================================================================
-- Merged-output characterisation
-- ===========================================================================

theorem dedupFirst_map_inj {α β : Type} [DecidableEq α] [DecidableEq β]
    {f : α → β} (hf : Function.Injective f) (l : List α) :
    dedupFirst (l.map f) = (dedupFirst l).map f := by
  induction l using dedupFirst.induct with
  | case1 => simp [dedupFirst]
  | case2 x xs ih =>
    rw [List.map_cons, dedupFirst, dedupFirst]
    rw [List.map_cons]
    congr 1
    have hfl : (xs.map f).filter (fun y => ¬ y = f x) =
        (xs.filter (fun y => ¬ y = x)).map f := by
      rw [List.filter_map]
      congr 1
      apply List.filter_congr
      intro b _
      by_cases hbx : b = x
      · simp [Function.comp_apply, hbx]
      · have : ¬ f b = f x := fun hc => hbx (hf hc)
        simp [Function.comp_apply, hbx, this]
    rw [hfl, ih]

theorem mem_jsSortVals (x : Val) (l : List Val) :
    x ∈ jsSortVals l ↔ x ∈ l :=
  (List.perm_insertionSort jsLe l).mem_iff

theorem eq_of_mem_nodup_keys {β : Type} {l : List (Val × β)}
    (h : (l.map Prod.fst).Nodup) {a b : Val × β}
    (ha : a ∈ l) (hb : b ∈ l) (hk : a.1 = b.1) : a = b := by
  induction l with
  | nil => cases ha
  | cons x xs ih =>
    rw [List.map_cons, List.nodup_cons] at h
    rcases List.mem_cons.mp ha with rfl | ha2
    · rcases List.mem_cons.mp hb with rfl | hb2
      · rfl
      · exact absurd (hk ▸ List.mem_map_of_mem Prod.fst hb2) h.1
    · rcases List.mem_cons.mp hb with rfl | hb2
      · exact absurd (hk ▸ List.mem_map_of_mem Prod.fst ha2) h.1
      · exact ih h.2 ha2 hb2

theorem flatMap_classes_eq_map (l : List Val)
    (h : ∀ e ∈ l, ∃ cn, classesOfVal e = [.vstr cn]) :
    l.flatMap classesOfVal = (classTagsOf l).map .vstr := by
  induction l with
  | nil => rfl
  | cons e l2 ih =>
    obtain ⟨cn, hcn⟩ := h e (List.mem_cons_self _ _)
    rw [List.flatMap_cons, classTagsOf, List.flatMap_cons, hcn,
      List.map_append]
    rw [ih (fun x hx => h x (List.mem_cons_of_mem _ hx))]
    simp [Val.asStr?, classTagsOf]

/-- Every record in the flattened per-class results carries exactly one
class tag: the name of the class it was fetched for. -/
theorem flat_classes_single (resp : Int → UpstreamResp) (sm : SourceMap) :
    ∀ e ∈ (classResultsOf resp sm).flatten, ∃ cn, classesOfVal e = [.vstr cn] := by
  intro e he
  obtain ⟨l, hl, hel⟩ := List.mem_flatten.mp he
  obtain ⟨c, _, hc⟩ := List.mem_map.mp hl
  exact ⟨c.2, classResult_classes _ _ _ e (hc ▸ hel)⟩

/-- Membership in the flattened results is membership in some class's
result. -/
theorem mem_flat_iff (resp : Int → UpstreamResp) (sm : SourceMap) (e : Val) :
    e ∈ (classResultsOf resp sm).flatten ↔
      ∃ c ∈ SPELLCASTING_CLASSES, e ∈ fetchSpellsByClassPure (resp c.1) c.2 sm := by
  rw [List.mem_flatten]
  constructor
  · rintro ⟨l, hl, hel⟩
    obtain ⟨c, hc, hcl⟩ := List.mem_map.mp hl
    exact ⟨c, hc, hcl ▸ hel⟩
  · rintro ⟨c, hc, hce⟩
    exact ⟨fetchSpellsByClassPure (resp c.1) c.2 sm,
      List.mem_map_of_mem _ hc, hce⟩

/-- The class tags of the occurrences of a name are exactly the names of
the classes whose result yields that name. -/
theorem classTags_occs_mem (resp : Int → UpstreamResp) (sm : SourceMap)
    (v : Val) (cn : String) :
    cn ∈ classTagsOf (occsOf v ((classResultsOf resp sm).flatten)) ↔
      cn ∈ classesYielding resp sm v := by
  rw [classTagsOf, List.mem_flatMap, classesYielding]
  constructor
  · rintro ⟨occ, hocc, htag⟩
    have hof := List.mem_filter.mp hocc
    obtain ⟨c, hc, hce⟩ := (mem_flat_iff resp sm occ).mp hof.1
    have hcls := classResult_classes _ _ _ occ hce
    rw [hcls] at htag
    simp only [List.filterMap, Val.asStr?] at htag
    rw [List.mem_singleton] at htag
    subst htag
    apply List.mem_map_of_mem Prod.snd
    rw [List.mem_filter]
    refine ⟨hc, ?_⟩
    rw [List.any_eq_true]
    exact ⟨occ, hce, hof.2⟩
  · intro hcn
    obtain ⟨c, hc, hcsnd⟩ := List.mem_map.mp hcn
    have hcf := List.mem_filter.mp hc
    obtain ⟨s, hs, hsv⟩ := List.any_eq_true.mp hcf.2
    refine ⟨s, ?_, ?_⟩
    · rw [occsOf, List.mem_filter]
      exact ⟨(mem_flat_iff resp sm s).mpr ⟨c, hcf.1, hs⟩, hsv⟩
    · rw [classResult_classes _ _ _ s hs]
      simp [Val.asStr?, hcsnd]

/-- Names of the fixed spellcasting classes are distinct, so
`classesYielding` is duplicate-free. -/
theorem classesYielding_nodup (resp : Int → UpstreamResp) (sm : SourceMap)
    (v : Val) : (classesYielding resp sm v).Nodup := by
  rw [classesYielding]
  apply List.Nodup.map_on
  · intro a ha b hb hab
    have hna : a ∈ SPELLCASTING_CLASSES := (List.mem_filter.mp ha).1
    have hnb : b ∈ SPELLCASTING_CLASSES := (List.mem_filter.mp hb).1
    revert hab
    rw [SPELLCASTING_CLASSES] at hna hnb
    fin_cases hna <;> fin_cases hnb <;> decide
  · exact List.Nodup.filter _ (by rw [SPELLCASTING_CLASSES]; decide)

theorem dedupFirst_eq_self_of_nodup {α : Type} [DecidableEq α]
    {l : List α} (h : l.Nodup) : dedupFirst l = l := by
  induction l with
  | nil => simp [dedupFirst]
  | cons x xs ih =>
    rw [List.nodup_cons] at h
    rw [dedupFirst]
    have hfl : xs.filter (fun y => ¬ y = x) = xs := by
      apply List.filter_eq_self.mpr
      intro b hb
      simp only [decide_eq_true_eq]
      intro hbx
      exact h.1 (hbx ▸ hb)
    rw [hfl, ih h.2]

theorem countP_eq_one_of_nodup_keys {β : Type} {l : List (Val × β)}
    (h : (l.map Prod.fst).Nodup) {v : Val} {q0 : Val × β}
    (hq0 : q0 ∈ l) (hq0v : q0.1 = v) :
    l.countP (fun q => q.1 = v) = 1 := by
  induction l with
  | nil => cases hq0
  | cons x xs ih =>
    rw [List.map_cons, List.nodup_cons] at h
    rw [List.countP_cons]
    rcases List.mem_cons.mp hq0 with rfl | hmem
    · rw [if_pos (by simpa using hq0v)]
      have hzero : xs.countP (fun q => q.1 = v) = 0 := by
        rw [List.countP_eq_zero]
        intro q hq hqv
        apply h.1
        rw [hq0v]
        have : q.1 = v := by simpa using hqv
        exact this ▸ List.mem_map_of_mem Prod.fst hq
      rw [hzero]
    · have hxv : ¬ x.1 = v := by
        intro hc
        apply h.1
        rw [hc, ← hq0v]
        exact List.mem_map_of_mem Prod.fst hmem
      rw [if_neg (by simpa using hxv), ih h.2 hmem]

/-- Characterisation of the merged output at a name `v` that occurs among
the per-class results: exactly one merged entry carries `v`, namely the
finalisation of the first-seen occurrence with every later occurrence's
class tag folded in. -/
theorem mergedAllSpells_entry (resp : Int → UpstreamResp) (sm : SourceMap)
    (v : Val) (hv : v.truthy = true) (s0 : Val) (rest : List Val)
    (hocc : occsOf v ((classResultsOf resp sm).flatten) = s0 :: rest) :
    (mergedAllSpells resp sm).countP (fun e => e.getField "name" = v) = 1 ∧
    finalizeSpell (rest.foldl (fun a occ => unionInto a (classesOfVal occ)) s0)
      ∈ mergedAllSpells resp sm ∧
    (∀ e ∈ mergedAllSpells resp sm, e.getField "name" = v →
      e = finalizeSpell
        (rest.foldl (fun a occ => unionInto a (classesOfVal occ)) s0)) := by
  have hobj := flatClasses_isObj resp sm
  have hinv0 : MapInv [] := ⟨List.nodup_nil, by intro p hp; cases hp⟩
  have hM := mapInv_mergeFold ((classResultsOf resp sm).flatten) [] hobj hinv0
  have hfind := mergeFold_find? v hv ((classResultsOf resp sm).flatten) []
    hobj hinv0
  rw [show (([] : List (Val × Val)).find? (fun p => p.1 = v)) = none from rfl]
    at hfind
  dsimp only at hfind
  rw [hocc] at hfind
  have hmem : (v, rest.foldl (fun a occ => unionInto a (classesOfVal occ)) s0)
      ∈ mergeFold ((classResultsOf resp sm).flatten) [] :=
    List.mem_of_find?_eq_some hfind
  have hemem : finalizeSpell
      (rest.foldl (fun a occ => unionInto a (classesOfVal occ)) s0)
      ∈ mergedAllSpells resp sm := by
    rw [mergedAllSpells]
    exact List.mem_map_of_mem (fun p => finalizeSpell p.2) hmem
  have hcount : (mergedAllSpells resp sm).countP
      (fun e => e.getField "name" = v) = 1 := by
    rw [mergedAllSpells, List.countP_map]
    have hcongr : ∀ q ∈ mergeFold ((classResultsOf resp sm).flatten) [],
        (((fun e => decide (Val.getField e "name" = v)) ∘
          fun p => finalizeSpell p.2) q = true ↔ decide (q.1 = v) = true) := by
      intro q hq
      simp only [Function.comp_apply, finalizeSpell_name, (hM.2 q hq).2.1]
    rw [List.countP_congr hcongr]
    exact countP_eq_one_of_nodup_keys hM.1 hmem rfl
  refine ⟨hcount, hemem, ?_⟩
  intro e he hev
  rw [mergedAllSpells] at he
  obtain ⟨q, hq, hqe⟩ := List.mem_map.mp he
  have hqname : q.1 = v := by
    rw [← (hM.2 q hq).2.1, ← finalizeSpell_name, hqe, hev]
  have hqeq := eq_of_mem_nodup_keys hM.1 hq hmem (by rw [hqname])
  rw [← hqe, hqeq]

-- ===========================================================================
-- Merge identity claim (C1)
-- ===========================================================================

/-- C1 (confirmed): when two different classes' results contain a spell of
the same name, the merged output holds exactly one entry for that name;
its `availableToClasses` is the sorted duplicate-free union of the names
of every class whose result yielded the spell, and every other field comes
from the first-seen occurrence in the fixed class-array order (the merged
entry carries `availableToClasses`/`availableToSubclasses` in place of the
temporary `_classes` tag). -/
theorem c1_merge_identity (resp : Int → UpstreamResp) (config : Val) (v : Val)
    (ca cb : Int × String)
    (hca : ca ∈ SPELLCASTING_CLASSES) (hcb : cb ∈ SPELLCASTING_CLASSES)
    (hcne : ¬ ca = cb)
    (ha : ∃ s ∈ fetchSpellsByClassPure (resp ca.1) ca.2
      (buildSourceMapPure config), s.getField "name" = v)
    (hb : ∃ s ∈ fetchSpellsByClassPure (resp cb.1) cb.2
      (buildSourceMapPure config), s.getField "name" = v) :
    ((mergedAllSpells resp (buildSourceMapPure config)).countP
      (fun e => e.getField "name" = v) = 1) ∧
    (∀ e ∈ mergedAllSpells resp (buildSourceMapPure config),
      e.getField "name" = v →
      e.getField "availableToClasses" =
        .varr ((sortStrings (dedupFirst
          (classesYielding resp (buildSourceMapPure config) v))).map .vstr) ∧
      e.getField "availableToSubclasses" = .varr [] ∧
      (∀ k, ¬ k = "availableToClasses" → ¬ k = "availableToSubclasses" →
        ¬ k = "_classes" →
        e.getField k = ((occsOf v
          ((classResultsOf resp (buildSourceMapPure config)).flatten)).headD
            Val.undef).getField k)) := by
  obtain ⟨sa, hsa, hsav⟩ := ha
  obtain ⟨sb, hsb, hsbv⟩ := hb
  obtain ⟨rawa, hrawa⟩ := classResult_shape _ _ _ sa hsa
  have hv : v.truthy = true := by
    rw [← hsav, hrawa]
    exact enhanceSpellData_name_truthy _ _ _
  have hsamem : sa ∈ (classResultsOf resp (buildSourceMapPure config)).flatten :=
    (mem_flat_iff _ _ sa).mpr ⟨ca, hca, hsa⟩
  have hsbmem : sb ∈ (classResultsOf resp (buildSourceMapPure config)).flatten :=
    (mem_flat_iff _ _ sb).mpr ⟨cb, hcb, hsb⟩
  have hsaocc : sa ∈ occsOf v
      ((classResultsOf resp (buildSourceMapPure config)).flatten) := by
    rw [occsOf, List.mem_filter]
    exact ⟨hsamem, by simpa using hsav⟩
  have hsbocc : sb ∈ occsOf v
      ((classResultsOf resp (buildSourceMapPure config)).flatten) := by
    rw [occsOf, List.mem_filter]
    exact ⟨hsbmem, by simpa using hsbv⟩
  have hsnd : ¬ ca.2 = cb.2 := by
    revert hcne
    rw [SPELLCASTING_CLASSES] at hca hcb
    fin_cases hca <;> fin_cases hcb <;> decide
  have hab : ¬ sa = sb := by
    intro hc
    apply hsnd
    have h1 := classResult_classes _ _ _ sa hsa
    have h2 := classResult_classes _ _ _ sb hsb
    rw [hc] at h1
    rw [h1] at h2
    exact Val.vstr.inj (List.cons.inj h2).1
  cases hocc : occsOf v
      ((classResultsOf resp (buildSourceMapPure config)).flatten) with
  | nil =>
    rw [hocc] at hsaocc
    cases hsaocc
  | cons s0 rest =>
    have hrest : ¬ rest = [] := by
      intro hr
      rw [hr] at hocc
      rw [hocc] at hsaocc hsbocc
      rw [List.mem_singleton] at hsaocc hsbocc
      exact hab (hsaocc.trans hsbocc.symm)
    obtain ⟨hcount, hval_mem, huniq⟩ :=
      mergedAllSpells_entry resp (buildSourceMapPure config) v hv s0 rest hocc
    have hs0occ : s0 ∈ occsOf v
        ((classResultsOf resp (buildSourceMapPure config)).flatten) := by
      rw [hocc]
      exact List.mem_cons_self _ _
    have hs0flat : s0 ∈ (classResultsOf resp (buildSourceMapPure config)).flatten :=
      (List.mem_filter.mp hs0occ).1
    have hs0obj : s0.isObj = true :=
      flatClasses_isObj _ _ s0 hs0flat
    have hsingle : ∀ e ∈ s0 :: rest, ∃ cn, classesOfVal e = [.vstr cn] := by
      intro e he
      apply flat_classes_single
      rw [← hocc] at he
      exact (List.mem_filter.mp he).1
    have hclasses : classesOfVal
        (rest.foldl (fun a occ => unionInto a (classesOfVal occ)) s0) =
        dedupFirst ((s0 :: rest).flatMap classesOfVal) := by
      rw [classesOf_foldl_unionInto rest s0 hs0obj hrest, List.flatMap_cons]
    have hsorteq : sortStrings (dedupFirst (classTagsOf (s0 :: rest))) =
        sortStrings (dedupFirst
          (classesYielding resp (buildSourceMapPure config) v)) := by
      apply sortStrings_eq_of_perm
      apply List.perm_of_nodup_nodup_toFinset_eq (nodup_dedupFirst _)
        (nodup_dedupFirst _)
      apply Finset.ext
      intro a
      rw [List.mem_toFinset, List.mem_toFinset, mem_dedupFirst, mem_dedupFirst,
        ← hocc, classTags_occs_mem]
    refine ⟨hcount, ?_⟩
    intro e he hev
    have heq := huniq e he hev
    refine ⟨?_, ?_, ?_⟩
    · rw [heq, finalizeSpell_avail, hclasses,
        flatMap_classes_eq_map (s0 :: rest) hsingle,
        dedupFirst_map_inj (fun a b hc => Val.vstr.inj hc),
        jsSortVals_map_vstr, hsorteq]
    · rw [heq, finalizeSpell_sub]
    · intro k hk1 hk2 hk3
      rw [heq, finalizeSpell_preserves _ k hk1 hk2 hk3,
        getField_foldl_unionInto rest s0 k hk3]
      rfl

/-- Witness for `c1_merge_identity` at a concrete two-class run sharing
the spell name "X" under different platform ids. -/
theorem c1_merge_identity_witness :
    (mergedAllSpells
      (fun i =>
        if i = 1 then .ok (.vobj [("success", .vbool true), ("data", .varr
          [.vobj [("id", .vnum 11),
            ("definition", .vobj [("name", .vstr "X")])]])])
        else if i = 2 then .ok (.vobj [("success", .vbool true), ("data", .varr
          [.vobj [("id", .vnum 22),
            ("definition", .vobj [("name", .vstr "X")])]])])
        else .err)
      (buildSourceMapPure (.vobj [("sources", .varr [])]))).countP
      (fun e => e.getField "name" = .vstr "X") = 1 :=
  (c1_merge_identity
    (fun i =>
      if i = 1 then .ok (.vobj [("success", .vbool true), ("data", .varr
        [.vobj [("id", .vnum 11),
          ("definition", .vobj [("name", .vstr "X")])]])])
      else if i = 2 then .ok (.vobj [("success", .vbool true), ("data", .varr
        [.vobj [("id", .vnum 22),
          ("definition", .vobj [("name", .vstr "X")])]])])
      else .err)
    (.vobj [("sources", .varr [])]) (.vstr "X") (1, "Bard") (2, "Cleric")
    (by decide) (by decide) (by decide)
    (by decide) (by decide)).1

-- ===========================================================================
-- Partial-failure claim (C8)
-- ===========================================================================

/-- C8 (confirmed): a failed per-class fetch (network error or non-2xx,
both modelled by `UpstreamResp.err`; a malformed body likewise yields `[]`
by `fetchSpellsByClassPure`) contributes an empty list, no error
propagates (`fetchAllSpells`'s pure core is total), and the merged result
still contains an entry for every named spell of every succeeding class,
listing that class among its availability. -/
theorem c8_partial_failure (resp : Int → UpstreamResp) (config : Val)
    (c : Int × String) (hc : c ∈ SPELLCASTING_CLASSES)
    (hfail : resp c.1 = .err) :
    fetchSpellsByClassPure (resp c.1) c.2 (buildSourceMapPure config) = [] ∧
    (∀ c2, c2 ∈ SPELLCASTING_CLASSES →
      ∀ s ∈ fetchSpellsByClassPure (resp c2.1) c2.2 (buildSourceMapPure config),
      ∃ e ∈ mergedAllSpells resp (buildSourceMapPure config),
        e.getField "name" = s.getField "name" ∧
        .vstr c2.2 ∈ (e.getField "availableToClasses").asList) := by
  constructor
  · rw [hfail]
    rfl
  · intro c2 hc2 s hs
    obtain ⟨raw, hraw⟩ := classResult_shape _ _ _ s hs
    have hv : (s.getField "name").truthy = true := by
      rw [hraw]
      exact enhanceSpellData_name_truthy _ _ _
    have hsmem : s ∈ (classResultsOf resp (buildSourceMapPure config)).flatten :=
      (mem_flat_iff _ _ s).mpr ⟨c2, hc2, hs⟩
    have hsocc : s ∈ occsOf (s.getField "name")
        ((classResultsOf resp (buildSourceMapPure config)).flatten) := by
      rw [occsOf, List.mem_filter]
      exact ⟨hsmem, by simp⟩
    have hscls := classResult_classes _ _ _ s hs
    cases hocc : occsOf (s.getField "name")
        ((classResultsOf resp (buildSourceMapPure config)).flatten) with
    | nil =>
      rw [hocc] at hsocc
      cases hsocc
    | cons s0 rest =>
      obtain ⟨_, hval_mem, _⟩ := mergedAllSpells_entry resp
        (buildSourceMapPure config) (s.getField "name") hv s0 rest hocc
      have hs0occ : s0 ∈ occsOf (s.getField "name")
          ((classResultsOf resp (buildSourceMapPure config)).flatten) := by
        rw [hocc]
        exact List.mem_cons_self _ _
      have hs0name : s0.getField "name" = s.getField "name" := by
        have := (List.mem_filter.mp hs0occ).2
        simpa using this
      have hs0obj : s0.isObj = true :=
        flatClasses_isObj _ _ s0 (List.mem_filter.mp hs0occ).1
      refine ⟨finalizeSpell
        (rest.foldl (fun a occ => unionInto a (classesOfVal occ)) s0),
        hval_mem, ?_, ?_⟩
      · rw [finalizeSpell_name,
          getField_foldl_unionInto rest s0 "name" (by decide), hs0name]
      · rw [finalizeSpell_avail, Val.asList, mem_jsSortVals]
        by_cases hrest : rest = []
        · subst hrest
          rw [List.foldl_nil]
          have hss0 : s = s0 := by
            rw [hocc] at hsocc
            simpa using hsocc
          rw [← hss0, hscls]
          exact List.mem_singleton.mpr rfl
        · rw [classesOf_foldl_unionInto rest s0 hs0obj hrest, mem_dedupFirst,
            ← List.flatMap_cons]
          rw [List.mem_flatMap]
          refine ⟨s, ?_, ?_⟩
          · rw [← hocc] at *
            exact hsocc
          · rw [hscls]
            exact List.mem_singleton.mpr rfl

/-- Witness for `c8_partial_failure`: the Bard fetch fails while the
Cleric fetch succeeds with one spell; the merged output still carries it. -/
theorem c8_partial_failure_witness :
    fetchSpellsByClassPure
      ((fun i => if i = 2 then UpstreamResp.ok (.vobj [("success", .vbool true),
        ("data", .varr [.vobj [("definition", .vobj [("name", .vstr "Y")])]])])
        else .err) (1 : Int)) "Bard"
      (buildSourceMapPure (.vobj [("sources", .varr [])])) = [] ∧
    ∃ e ∈ mergedAllSpells
      (fun i => if i = 2 then UpstreamResp.ok (.vobj [("success", .vbool true),
        ("data", .varr [.vobj [("definition", .vobj [("name", .vstr "Y")])]])])
        else .err)
      (buildSourceMapPure (.vobj [("sources", .varr [])])),
      e.getField "name" = (enhanceSpellData
        (.vobj [("definition", .vobj [("name", .vstr "Y")])]) "Cleric"
        (buildSourceMapPure (.vobj [("sources", .varr [])]))).getField "name" ∧
      .vstr "Cleric" ∈ (e.getField "availableToClasses").asList := by
  have h := c8_partial_failure
    (fun i => if i = 2 then UpstreamResp.ok (.vobj [("success", .vbool true),
      ("data", .varr [.vobj [("definition", .vobj [("name", .vstr "Y")])]])])
      else .err)
    (.vobj [("sources", .varr [])]) (1, "Bard") (by decide) (by decide)
  exact ⟨h.1, h.2 (2, "Cleric") (by decide)
    (enhanceSpellData (.vobj [("definition", .vobj [("name", .vstr "Y")])])
      "Cleric" (buildSourceMapPure (.vobj [("sources", .varr [])])))
    (by decide)⟩

-- ===========================================================================
-- Ownership claim (C2)
-- ===========================================================================

theorem contains_iff_mem_val (l : List Val) (x : Val) :
    l.contains x = true ↔ x ∈ l := by
  simp

theorem ownGet_set (m : List (Val × Bool)) (k : Val) (b : Bool) (v : Val) :
    ownGet (if m.any (fun p => p.1 = k) then
        m.map (fun p => if p.1 = k then (k, b) else p)
      else m ++ [(k, b)]) v =
      if k = v then some b else ownGet m v := by
  by_cases hany : (m.any fun p => p.1 = k) = true
  · rw [if_pos hany, ownGet,
      find?_map_keyfix m _ (fun q => by by_cases hq : q.1 = k <;> simp [hq]) v]
    by_cases hkv : k = v
    · subst hkv
      have hsome : (m.find? fun p => p.1 = k).isSome := by
        rw [List.find?_isSome]
        obtain ⟨q, hq, hq2⟩ := List.any_eq_true.mp hany
        exact ⟨q, hq, hq2⟩
      obtain ⟨p, hp⟩ := Option.isSome_iff_exists.mp hsome
      have hp1 : p.1 = k := by simpa using List.find?_some hp
      rw [hp, Option.map_some', if_pos hp1, if_pos rfl]
      rfl
    · rw [if_neg hkv, ownGet]
      cases hm : m.find? (fun p => p.1 = v) with
      | none => rfl
      | some p =>
        have hp1 : p.1 = v := by simpa using List.find?_some hm
        rw [Option.map_some', if_neg (by rw [hp1]; exact fun hc => hkv hc.symm)]
  · rw [if_neg hany, ownGet, List.find?_append]
    have hmf : m.find? (fun p => p.1 = k) = none := by
      rw [List.find?_eq_none]
      intro q hq hqk
      exact hany (List.any_eq_true.mpr ⟨q, hq, hqk⟩)
    by_cases hkv : k = v
    · subst hkv
      rw [hmf, Option.none_or]
      rw [if_pos rfl]
      simp [List.find?]
    · rw [if_neg hkv, ownGet]
      have hone : ([(k, b)].find? fun p => p.1 = v) = none := by
        simp [List.find?, hkv]
      rw [hone, Option.or_none]

theorem ownGet_ownershipOf (cited : List Val) (v : Val) (srcs : List Val) :
    ownGet (ownershipOf srcs cited) v =
      if (srcs.any fun src => src.getField "id" = v) = true
      then some (cited.contains v) else none := by
  suffices h : ∀ m : List (Val × Bool),
      ownGet (srcs.foldl (fun m src =>
        if m.any (fun p => p.1 = src.getField "id") then
          m.map (fun p => if p.1 = src.getField "id" then
            (src.getField "id", cited.contains (src.getField "id")) else p)
        else m ++ [(src.getField "id", cited.contains (src.getField "id"))]) m) v =
      if (srcs.any fun src => src.getField "id" = v) = true
      then some (cited.contains v) else ownGet m v by
    rw [ownershipOf, h []]
    by_cases hc : (srcs.any fun src => src.getField "id" = v) = true
    · rw [if_pos hc, if_pos hc]
    · rw [if_neg hc, if_neg hc]
      rfl
  induction srcs with
  | nil =>
    intro m
    rw [List.foldl_nil, List.any_nil, if_neg (by simp)]
  | cons src srcs2 ih =>
    intro m
    rw [List.foldl_cons, ih, List.any_cons]
    have hstep := ownGet_set m (src.getField "id")
      (cited.contains (src.getField "id")) v
    by_cases h2 : (srcs2.any fun s => s.getField "id" = v) = true
    · rw [if_pos h2, if_pos (by simp [h2])]
    · rw [if_neg h2, hstep]
      by_cases hkv : src.getField "id" = v
      · rw [if_pos hkv, if_pos (by simp [hkv]), hkv]
      · rw [if_neg hkv, if_neg (by simp [hkv, h2])]

theorem mem_citedSourceIds (records : List Val) (v : Val) :
    v ∈ citedSourceIds records ↔
      ∃ e ∈ records, ∃ s ∈ (spellSourcesVal e).asList,
        s.getField "sourceId" = v ∧ v.truthy = true := by
  rw [citedSourceIds, List.mem_flatMap]
  constructor
  · rintro ⟨e, he, hf⟩
    obtain ⟨s, hs, hfs⟩ := List.mem_filterMap.mp hf
    by_cases ht : (s.getField "sourceId").truthy = true
    · rw [if_pos ht] at hfs
      have hv := Option.some.inj hfs
      exact ⟨e, he, s, hs, hv, hv ▸ ht⟩
    · rw [if_neg ht] at hfs
      cases hfs
  · rintro ⟨e, he, s, hs, hv, ht⟩
    refine ⟨e, he, List.mem_filterMap.mpr ⟨s, hs, ?_⟩⟩
    rw [if_pos (hv ▸ ht), hv]

theorem mem_citedSourceIdsItems (records : List Val) (v : Val) :
    v ∈ citedSourceIdsItems records ↔
      ∃ e ∈ records, ∃ s ∈ (itemSourcesVal e).asList,
        s.getField "sourceId" = v ∧ v.truthy = true := by
  rw [citedSourceIdsItems, List.mem_flatMap]
  constructor
  · rintro ⟨e, he, hf⟩
    obtain ⟨s, hs, hfs⟩ := List.mem_filterMap.mp hf
    by_cases ht : (s.getField "sourceId").truthy = true
    · rw [if_pos ht] at hfs
      have hv := Option.some.inj hfs
      exact ⟨e, he, s, hs, hv, hv ▸ ht⟩
    · rw [if_neg ht] at hfs
      cases hfs
  · rintro ⟨e, he, s, hs, hv, ht⟩
    refine ⟨e, he, List.mem_filterMap.mpr ⟨s, hs, ?_⟩⟩
    rw [if_pos (hv ▸ ht), hv]

theorem itemSourcesVal_enhance (i : Val) (sm : SourceMap)
    (m : Int → Option String) :
    itemSourcesVal (enhanceItemData i sm m) = itemSourcesVal i := by
  rw [itemSourcesVal, itemSourcesVal, enhanceItemData_sources]

/-- C2 (corrected): for items, `ownershipBySourceId` is computed from the
raw pre-filter response: a config-listed source id maps to `true` exactly
when some raw record cites it (as a truthy `sourceId`), while the returned
items cite at least one requested id when a filter is given.  For spells —
the amendment — the map is computed from the merged, deduplicated-by-name
set (`mergedAllSpells`), not from the raw per-class responses: a source id
cited only by a later-seen duplicate of an already-seen spell name is not
marked owned (see the counterexample); the returned spells are filtered
the same way as items. -/
theorem c2_ownership (json config : Val) (ids : List Val)
    (m : Int → Option String) (rawItems : List Val)
    (hraw : itemsFromJson json = some rawItems)
    (r : ItemsResult) (hr : fetchAllItemsPure (.ok json) config ids m = some r)
    (resp : Int → UpstreamResp) (v : Val) :
    (∀ b, ownGet r.ownershipBySourceId v = some b →
      (b = true ↔ ∃ e ∈ rawItems, ∃ s ∈ (itemSourcesVal e).asList,
        s.getField "sourceId" = v ∧ v.truthy = true)) ∧
    ((ownGet r.ownershipBySourceId v).isSome = true ↔
      ∃ src ∈ getAllSourcesPure config, src.getField "id" = v) ∧
    (¬ ids = [] → ∀ e ∈ r.items, ∃ s ∈ (itemSourcesVal e).asList,
      s.getField "sourceId" ∈ ids) ∧
    (∀ b, ownGet (fetchAllSpellsPure resp config ids).ownershipBySourceId v
        = some b →
      (b = true ↔ ∃ e ∈ mergedAllSpells resp (buildSourceMapPure config),
        ∃ s ∈ (spellSourcesVal e).asList,
          s.getField "sourceId" = v ∧ v.truthy = true)) ∧
    (¬ ids = [] → ∀ e ∈ (fetchAllSpellsPure resp config ids).spells,
      ∃ s ∈ (spellSourcesVal e).asList, s.getField "sourceId" ∈ ids) := by
  rw [fetchAllItemsPure] at hr
  dsimp only at hr
  rw [hraw] at hr
  have hrec := Option.some.inj hr
  have hrown : r.ownershipBySourceId =
      ownershipOf (getAllSourcesPure config) (citedSourceIdsItems rawItems) := by
    rw [← hrec]
  have hritems : r.items = filterUnearthedArcanaItems
      (((if ids.length > 0 then filterBySourceBooksItems rawItems ids
        else rawItems)).map
        (fun i => enhanceItemData i (buildSourceMapPure config) m)) := by
    rw [← hrec]
  refine ⟨?_, ?_, ?_, ?_, ?_⟩
  · intro b hb
    rw [hrown, ownGet_ownershipOf] at hb
    by_cases hc : ((getAllSourcesPure config).any
        fun src => src.getField "id" = v) = true
    · rw [if_pos hc] at hb
      have hbv := Option.some.inj hb
      rw [← hbv, contains_iff_mem_val, mem_citedSourceIdsItems]
    · rw [if_neg hc] at hb
      cases hb
  · rw [hrown, ownGet_ownershipOf]
    by_cases hc : ((getAllSourcesPure config).any
        fun src => src.getField "id" = v) = true
    · rw [if_pos hc]
      simp only [Option.isSome_some, true_iff]
      obtain ⟨src, hsrc, hsv⟩ := List.any_eq_true.mp hc
      exact ⟨src, hsrc, by simpa using hsv⟩
    · rw [if_neg hc]
      simp only [Option.isSome_none, Bool.false_eq_true, false_iff]
      rintro ⟨src, hsrc, hsv⟩
      exact hc (List.any_eq_true.mpr ⟨src, hsrc, by simpa using hsv⟩)
  · intro hids e he
    rw [hritems] at he
    have he2 := (List.mem_filter.mp he).1
    rw [if_pos (List.length_pos.mpr hids)] at he2
    obtain ⟨i, hi, hie⟩ := List.mem_map.mp he2
    rw [filterBySourceBooksItems,
      if_neg (fun hc => hids (List.length_eq_zero.mp hc))] at hi
    have hpred := (List.mem_filter.mp hi).2
    obtain ⟨s, hs, hcont⟩ := List.any_eq_true.mp hpred
    refine ⟨s, ?_, ?_⟩
    · rw [← hie, itemSourcesVal_enhance]
      exact hs
    · exact (contains_iff_mem_val ids _).mp (by simpa using hcont)
  · intro b hb
    have hsp : (fetchAllSpellsPure resp config ids).ownershipBySourceId =
        ownershipOf (getAllSourcesPure config)
          (citedSourceIds (mergedAllSpells resp (buildSourceMapPure config))) :=
      rfl
    rw [hsp, ownGet_ownershipOf] at hb
    by_cases hc : ((getAllSourcesPure config).any
        fun src => src.getField "id" = v) = true
    · rw [if_pos hc] at hb
      have hbv := Option.some.inj hb
      rw [← hbv, contains_iff_mem_val, mem_citedSourceIds]
    · rw [if_neg hc] at hb
      cases hb
  · intro hids e he
    have hspells : (fetchAllSpellsPure resp config ids).spells =
        (if ids.length > 0 then
          filterBySourceBooksSpells (filterUnearthedArcanaSpells
            (mergedAllSpells resp (buildSourceMapPure config))) ids
        else filterUnearthedArcanaSpells
          (mergedAllSpells resp (buildSourceMapPure config))) := rfl
    rw [hspells, if_pos (List.length_pos.mpr hids)] at he
    rw [filterBySourceBooksSpells,
      if_neg (fun hc => hids (List.length_eq_zero.mp hc))] at he
    have hpred := (List.mem_filter.mp he).2
    obtain ⟨s, hs, hcont⟩ := List.any_eq_true.mp hpred
    exact ⟨s, hs, (contains_iff_mem_val ids _).mp (by simpa using hcont)⟩

set_option maxRecDepth 10000

/-- C2 counterexample: two classes return a spell named "X", the first
citing source 1, the second citing source 2.  The raw (pre-filter)
responses cite source id 2, yet the returned `ownershipBySourceId` maps 2
to `false`, because ownership is computed from the merged set and the
merge discarded the duplicate record that cited 2. -/
theorem c2_counterexample :
    ownGet (fetchAllSpellsPure
      (fun i =>
        if i = 1 then .ok (.vobj [("success", .vbool true), ("data", .varr
          [.vobj [("definition", .vobj [("name", .vstr "X"),
            ("sources", .varr [.vobj [("sourceId", .vnum 1)]])])]])])
        else if i = 2 then .ok (.vobj [("success", .vbool true), ("data", .varr
          [.vobj [("definition", .vobj [("name", .vstr "X"),
            ("sources", .varr [.vobj [("sourceId", .vnum 2)]])])]])])
        else .err)
      (.vobj [("sources", .varr [
        .vobj [("id", .vnum 1), ("name", .vstr "A")],
        .vobj [("id", .vnum 2), ("name", .vstr "B")]])])
      [.vnum 1]).ownershipBySourceId (.vnum 2) = some false ∧
    (∃ s ∈ fetchSpellsByClassPure
      ((fun i : Int =>
        if i = 1 then UpstreamResp.ok (.vobj [("success", .vbool true),
          ("data", .varr [.vobj [("definition", .vobj [("name", .vstr "X"),
            ("sources", .varr [.vobj [("sourceId", .vnum 1)]])])]])])
        else if i = 2 then UpstreamResp.ok (.vobj [("success", .vbool true),
          ("data", .varr [.vobj [("definition", .vobj [("name", .vstr "X"),
            ("sources", .varr [.vobj [("sourceId", .vnum 2)]])])]])])
        else .err) 2) "Cleric"
      (buildSourceMapPure (.vobj [("sources", .varr [
        .vobj [("id", .vnum 1), ("name", .vstr "A")],
        .vobj [("id", .vnum 2), ("name", .vstr "B")]])])),
      ∃ src ∈ (spellSourcesVal s).asList,
        src.getField "sourceId" = .vnum 2) := by
  constructor
  · decide
  · decide

/-- Witness for `c2_ownership` at a concrete item fetch. -/
theorem c2_ownership_witness :
    (ownGet ((fetchAllItemsPure
      (.ok (.varr [.vobj [("name", .vstr "I"),
        ("sources", .varr [.vobj [("sourceId", .vnum 1)]])]]))
      (.vobj [("sources", .varr [.vobj [("id", .vnum 1), ("name", .vstr "A")]])])
      [.vnum 1] RARITY_MAP).getD ⟨[], [], [], []⟩).ownershipBySourceId
      (.vnum 1)).isSome = true :=
  ((c2_ownership (.varr [.vobj [("name", .vstr "I"),
      ("sources", .varr [.vobj [("sourceId", .vnum 1)]])]])
    (.vobj [("sources", .varr [.vobj [("id", .vnum 1), ("name", .vstr "A")]])])
    [.vnum 1] RARITY_MAP
    [.vobj [("name", .vstr "I"),
      ("sources", .varr [.vobj [("sourceId", .vnum 1)]])]]
    (by decide)
    ((fetchAllItemsPure
      (.ok (.varr [.vobj [("name", .vstr "I"),
        ("sources", .varr [.vobj [("sourceId", .vnum 1)]])]]))
      (.vobj [("sources", .varr [.vobj [("id", .vnum 1), ("name", .vstr "A")]])])
      [.vnum 1] RARITY_MAP).getD ⟨[], [], [], []⟩)
    (by decide) (fun _ => .err) (.vnum 1)).2.1).mpr (by decide)

-- ===========================================================================
-- Excluded-source exclusion (C3)
-- ===========================================================================

theorem filterUA_spells_no_excluded (l : List Val) (e : Val)
    (he : e ∈ filterUnearthedArcanaSpells l) :
    ((spellSourcesVal e).asList.any
      (fun s => s.getField "sourceId" = .vnum EXCLUDED_SOURCE_ID)) = false := by
  rw [filterUnearthedArcanaSpells] at he
  have hp := List.of_mem_filter he
  by_cases hc : ¬ ((e.getField "definition").getField "sources").truthy = true ∧
      ¬ (e.getField "sources").truthy = true
  · rw [spellSourcesVal, jsOr, if_neg hc.1, jsOr, if_neg hc.2]
    rfl
  · rw [if_neg hc] at hp
    simpa using hp

theorem filterUA_items_no_excluded (l : List Val) (e : Val)
    (he : e ∈ filterUnearthedArcanaItems l) :
    ((itemSourcesVal e).asList.any
      (fun s => s.getField "sourceId" = .vnum EXCLUDED_SOURCE_ID)) = false := by
  rw [filterUnearthedArcanaItems] at he
  have hp := List.of_mem_filter he
  by_cases hc : (e.getField "sources").truthy = true
  · rw [if_neg (not_not_intro hc)] at hp
    simpa using hp
  · rw [itemSourcesVal, jsOr, if_neg hc]
    rfl

theorem mem_of_filterBySourceBooksSpells (l ids : List Val) (e : Val)
    (he : e ∈ filterBySourceBooksSpells l ids) : e ∈ l := by
  rw [filterBySourceBooksSpells] at he
  split at he
  · exact he
  · exact List.mem_of_mem_filter he

/-- C3 (confirmed): no returned entry cites the excluded playtest source
id 39, regardless of the requested source filter (which may itself list
id 39): every spell returned by `fetchAllSpellsPure` and every item of a
successful `fetchAllItemsPure` has no effective source with
`sourceId === 39`; and the ownership map equals the one computed from the
unfiltered merged records, so the exclusion runs after ownership
computation and does not influence it. -/
theorem c3_ua_exclusion (resp : Int → UpstreamResp) (config : Val)
    (ids : List Val) (rresp : UpstreamResp) (config2 : Val) (ids2 : List Val)
    (m : Int → Option String) :
    ((fetchAllSpellsPure resp config ids).spells.all fun e =>
      ! ((spellSourcesVal e).asList.any
        (fun s => s.getField "sourceId" = .vnum EXCLUDED_SOURCE_ID))) = true ∧
    (fetchAllSpellsPure resp config ids).ownershipBySourceId =
      ownershipOf (getAllSourcesPure config)
        (citedSourceIds (mergedAllSpells resp (buildSourceMapPure config))) ∧
    ((fetchAllItemsPure rresp config2 ids2 m).all fun r =>
      r.items.all fun e =>
        ! ((itemSourcesVal e).asList.any
          (fun s => s.getField "sourceId" = .vnum EXCLUDED_SOURCE_ID))) = true := by
  refine ⟨?_, rfl, ?_⟩
  · rw [List.all_eq_true]
    intro e he
    simp only [fetchAllSpellsPure] at he
    have he1 : e ∈ filterUnearthedArcanaSpells
        (mergedAllSpells resp (buildSourceMapPure config)) := by
      split at he
      · exact mem_of_filterBySourceBooksSpells _ ids e he
      · exact he
    rw [filterUA_spells_no_excluded _ e he1]
    rfl
  · cases ho : fetchAllItemsPure rresp config2 ids2 m with
    | none => rfl
    | some r =>
      dsimp only [Option.all]
      rw [List.all_eq_true]
      intro e he
      cases rresp with
      | err =>
        rw [fetchAllItemsPure] at ho
        exact Option.noConfusion ho
      | ok json =>
        rw [fetchAllItemsPure] at ho
        dsimp only at ho
        cases hj : itemsFromJson json with
        | none =>
          rw [hj] at ho
          exact Option.noConfusion ho
        | some raw =>
          rw [hj] at ho
          have hrec := Option.some.inj ho
          have hritems : r.items = filterUnearthedArcanaItems
              ((if ids2.length > 0 then filterBySourceBooksItems raw ids2
                else raw).map
                (fun i => enhanceItemData i (buildSourceMapPure config2) m)) := by
            rw [← hrec]
          rw [hritems] at he
          rw [filterUA_items_no_excluded _ e he]
          rfl

end EnhancedImporter
